import Mathlib

/-!
# sanitags: tag-driven sanitization of Go structs

A shallow embedding of `sanitizer.go` and `sanitags.go`.

Modelling conventions.

* A Go struct value is a list of fields in declared order. Each field carries what
  reflection exposes to `SanitizeStruct`: its name, the value of `Tag.Get("sanitize")`
  (`""` when the key is absent), whether the field is exported, and its current value.
* The record is read in two ways. By value (`Field`, `SanitizeStruct`), every field owns its
  contents; this reading is exact for the outcome of a call and for what depends only on
  tags, kinds, exportedness and the emptiness of lists, and for records whose fields share
  no storage. In memory (`MField`, `SanitizeStructM`), strings live at addresses, a
  `[]string` field is a slice header over a window of addresses, and several fields may
  share storage, as slices over one backing array do in Go; the writes of `SetString` go
  to memory. `SanitizeStructM_outcome` and `SanitizeStructM_eq` relate the two readings.
* A nil slice is not distinguished from an empty one (the code reads only `Len`, and never
  changes it).
* The sanitize functions are pure total functions `String → String`; an unset (nil) slot
  of `Config` is `none`, and calling it panics.
* `SanitizeStruct` mutates its argument in place, so the embedding returns the final state
  together with the way the call ended (`Run`): a returned `error` (`none` is Go's `nil`)
  or a panic.
* The argument of `SanitizeStruct` is assumed to be a non-nil pointer to a struct.
* `SanitizeStructT` is the call by value with the invocations of the configured functions
  recorded in order; erasing the record of invocations gives `SanitizeStruct`. The call in
  memory records its invocations itself.
* Concurrency is not modelled. What is modelled of the mutex is the lock discipline of one
  goroutine: the operations on `mutex` and `config` that a function performs, in order.
* A field of the record is addressed by a path of field indices through nested structs.
  Structs behind pointers, slices, maps or interfaces are not part of the record in this
  sense: such a field has a kind other than `Struct`, and the code never looks inside it.
-/

namespace Sanitags

/-! ## sanitizer.go -/

/-- The two policy names: `const StripAll TagValue = "stripall"`. -/
def StripAll : String := "stripall"

/-- The second policy name: `const SafeUGC TagValue = "safeugc"`. -/
def SafeUGC : String := "safeugc"

/-- Configuration `type Config struct`: the two function slots; `none` is a nil func. -/
structure Config where
  StripAllFunc : Option (String → String)
  UGCFunc : Option (String → String)

/-- How a Go call ends: it returns a value, or it panics. -/
inductive Run (α : Type) where
  | ret (a : α)
  | panic
deriving DecidableEq, Repr

/-- Method `func (c *Config) StripAll(v string) string`: calls the slot; a nil func panics. -/
def Config.StripAll (c : Config) (v : String) : Run String :=
  match c.StripAllFunc with
  | some f => .ret (f v)
  | none => .panic

/-- Method `func (c *Config) SafeUGC(v string) string`: calls the slot; a nil func panics. -/
def Config.SafeUGC (c : Config) (v : String) : Run String :=
  match c.UGCFunc with
  | some g => .ret (g v)
  | none => .panic

/-- Package function `func Setup(c Config)`: overwrites the package variable `config`
(first argument: its previous content). -/
def Setup (_config : Config) (c : Config) : Config := c

/-- A configuration with both slots set. -/
def Config.of (f g : String → String) : Config := ⟨some f, some g⟩

/-! ## sanitags.go -/

/-- The two sentinel errors of the package. -/
inductive Error where
  | ErrInvalidTagValue
  | ErrInvalidPropertyType
deriving DecidableEq, Repr

/-- The `reflect.Kind`s that occur in the model. -/
inductive Kind where
  | Bool | Int | Array | Ptr | Slice | String | Struct
deriving DecidableEq, Repr

/-- Field values of a kind that `SanitizeStruct` never reads or writes. -/
inductive Other where
  | int (n : Int)
  | bool (b : Bool)
  | intSlice (xs : List Int)
  | strArray (xs : List String)
  | strPtr (target : Option String)
deriving DecidableEq, Repr

/-- Kind `reflect.Value.Kind()` of such a value. -/
def Other.kind : Other → Kind
  | .int _ => .Int
  | .bool _ => .Bool
  | .intSlice _ => .Slice
  | .strArray _ => .Array
  | .strPtr _ => .Ptr

/-- Element kind `Type().Elem().Kind()` of such a value, where it has one. -/
def Other.elemKind : Other → Option Kind
  | .int _ => none
  | .bool _ => none
  | .intSlice _ => some .Int
  | .strArray _ => some .String
  | .strPtr _ => some .String

mutual
/-- A field value: a string, a `[]string`, a nested struct, or something else. -/
inductive Value where
  | str (s : String)
  | strSlice (xs : List String)
  | struct (fields : List Field)
  | other (o : Other)
/-- A struct field as seen through reflection: `typ.Field(i)` and `val.Field(i)`. -/
inductive Field where
  | mk (Name : String) (Tag : String) (exported : Bool) (value : Value)
end

/-- Kind `field.Kind()`. -/
def Value.kind : Value → Kind
  | .str _ => .String
  | .strSlice _ => .Slice
  | .struct _ => .Struct
  | .other o => o.kind

/-- Element kind `field.Type().Elem().Kind()`, where the type has an element type. -/
def Value.elemKind : Value → Option Kind
  | .str _ => none
  | .strSlice _ => some .String
  | .struct _ => none
  | .other o => o.elemKind

/-- Field name. -/
def Field.Name : Field → String
  | .mk n _ _ _ => n

/-- Value of `fieldType.Tag.Get("sanitize")`. -/
def Field.Tag : Field → String
  | .mk _ t _ _ => t

/-- Whether the field is exported (`fieldType.IsExported()`). -/
def Field.exported : Field → Bool
  | .mk _ _ e _ => e

/-- Current value of the field. -/
def Field.value : Field → Value
  | .mk _ _ _ v => v

/-- The same field holding another value. -/
def Field.withValue : Field → Value → Field
  | .mk n t e _, v => .mk n t e v

/-- Function `getCleansedValue(tag, value) (string, error)`. -/
def getCleansedValue (config : Config) (tag : String) (value : String) :
    Run (String × Option Error) :=
  if tag = StripAll then
    match config.StripAll value with
    | .ret cleanedValue => .ret (cleanedValue, none)
    | .panic => .panic
  else if tag = SafeUGC then
    match config.SafeUGC value with
    | .ret cleanedValue => .ret (cleanedValue, none)
    | .panic => .panic
  else
    .ret ("", some .ErrInvalidTagValue)

/-- The inner loop `for j := 0; j < field.Len(); j++` over the elements of a tagged
`[]string` field, from index `j` on, read by value: the list stands for elements that no
other field shares (`sanitizeElemsM` is the loop on memory). The result is the elements
after the loop and, when the loop leaves `SanitizeStruct`, how (`none`: the loop ran to its
end). `Index(j).SetString` panics when the field is unexported. -/
def sanitizeElems (config : Config) (tag : String) (exported : Bool) :
    List String → List String × Option (Run (Option Error))
  | [] => ([], none)
  | x :: xs =>
    match getCleansedValue config tag x with
    | .panic => (x :: xs, some .panic)
    | .ret (_, some err) => (x :: xs, some (.ret (some err)))
    | .ret (cleanedValue, none) =>
      if exported then
        let r := sanitizeElems config tag exported xs
        (cleanedValue :: r.1, r.2)
      else (x :: xs, some .panic)

mutual
/-- Function `SanitizeStruct(s interface{}) error` on a pointer to the struct with the given
fields, read by value (`SanitizeStructM` is the call on memory, where fields may share
storage): the loop `for i := 0; i < val.NumField(); i++` from the current field on. Returns
the fields after the call and how the call ended. -/
def SanitizeStruct (config : Config) : List Field → List Field × Run (Option Error)
  | [] => ([], .ret none)
  | field :: rest =>
    match sanitizeField config field with
    | (field1, some r) => (field1 :: rest, r)
    | (field1, none) =>
      let r := SanitizeStruct config rest
      (field1 :: r.1, r.2)
termination_by structural fields => fields
/-- One iteration of the loop of `SanitizeStruct`: the field afterwards and, when the
iteration leaves the function, how (`none`: go on with the next field). -/
def sanitizeField (config : Config) : Field → Field × Option (Run (Option Error))
  | .mk name tag exported value =>
    if tag = "" then
      match value with
      | .struct fields =>
        -- `field.Addr().Interface()` panics on a value obtained from an unexported field
        if exported then
          let r := SanitizeStruct config fields
          match r.2 with
          | .ret none => (.mk name tag exported (.struct r.1), none)
          | err => (.mk name tag exported (.struct r.1), some err)
        else (.mk name tag exported value, some .panic)
      | _ => (.mk name tag exported value, none)
    else if value.kind = .Struct then
      (.mk name tag exported value, some (.ret (some .ErrInvalidPropertyType)))
    else if value.kind ≠ .String ∧ ¬ (value.kind = .Slice ∧ value.elemKind = some .String) then
      (.mk name tag exported value, some (.ret (some .ErrInvalidPropertyType)))
    else
      match value with
      | .strSlice xs =>
        let r := sanitizeElems config tag exported xs
        (.mk name tag exported (.strSlice r.1), r.2)
      | .str s =>
        match getCleansedValue config tag s with
        | .panic => (.mk name tag exported value, some .panic)
        | .ret (_, some err) => (.mk name tag exported value, some (.ret (some err)))
        | .ret (cleanedValue, none) =>
          -- `field.SetString` panics on a value obtained from an unexported field
          if exported then (.mk name tag exported (.str cleanedValue), none)
          else (.mk name tag exported value, some .panic)
      | _ => (.mk name tag exported value, some .panic)
termination_by structural field => field
end

/-! ## Notions used to state the properties -/

/-- What `getCleansedValue` makes of a tag, whatever the value is: the function it applies,
the error `ErrInvalidTagValue`, or a call of an unset slot. -/
inductive Resolved where
  | fn (F : String → String)
  | invalid
  | unset

/-- The `switch TagValue(tag)` of `getCleansedValue`, read without the value. -/
def resolve (config : Config) (tag : String) : Resolved :=
  if tag = StripAll then
    match config.StripAllFunc with
    | some f => .fn f
    | none => .unset
  else if tag = SafeUGC then
    match config.UGCFunc with
    | some g => .fn g
    | none => .unset
  else .invalid

/-- The field addressed by a path of field indices: `[i]` is field `i` of the struct,
`i :: p` is the field addressed by `p` inside the nested struct held by field `i`. -/
def fieldAt : List Field → List Nat → Option Field
  | _, [] => none
  | fields, [i] => fields[i]?
  | fields, i :: j :: p =>
    match fields[i]? with
    | some (.mk _ _ _ (.struct inner)) => fieldAt inner (j :: p)
    | _ => none

/-- Traversal order on paths (depth first, declared field order): `before q p` when the
field at `q` is visited strictly before the field at `p`; a struct comes before its own
fields. -/
def before : List Nat → List Nat → Bool
  | [], [] => false
  | [], _ :: _ => true
  | _ :: _, [] => false
  | i :: q, j :: p => decide (i < j) || (decide (i = j) && before q p)

/-- The traversal gets as far as the field at path `p`: at every level the fields declared
before the one the path goes through are processed without an error or a panic, and every
struct the path goes through is an untagged exported field, so that it is recursed into. -/
def arrivesAt (config : Config) : List Field → List Nat → Bool
  | _, [] => false
  | fields, [i] =>
    decide (i < fields.length) && decide ((SanitizeStruct config (fields.take i)).2 = .ret none)
  | fields, i :: j :: p =>
    decide ((SanitizeStruct config (fields.take i)).2 = .ret none) &&
    match fields[i]? with
    | some (.mk _ tag exported (.struct inner)) =>
      decide (tag = "") && exported && arrivesAt config inner (j :: p)
    | _ => false

mutual
/-- No field of the record carries a sanitize tag, at any nesting depth. -/
def noTagAnywhere : List Field → Bool
  | [] => true
  | field :: rest => noTagField field && noTagAnywhere rest
termination_by structural fields => fields
/-- The field carries no sanitize tag, nor does any field nested in it. -/
def noTagField : Field → Bool
  | .mk _ tag _ (.struct inner) => decide (tag = "") && noTagAnywhere inner
  | .mk _ tag _ _ => decide (tag = "")
termination_by structural field => field
end

mutual
/-- Every field of the record that holds a nested struct is exported, at any depth. -/
def structsExported : List Field → Bool
  | [] => true
  | field :: rest => structsExportedField field && structsExported rest
termination_by structural fields => fields
/-- The field, if it holds a nested struct, is exported, and so are the struct fields
nested in it. -/
def structsExportedField : Field → Bool
  | .mk _ _ exported (.struct inner) => exported && structsExported inner
  | .mk _ _ _ _ => true
termination_by structural field => field
end

mutual
/-- No field of the record carries the tag `P`, at any nesting depth. -/
def noFieldTagged (P : String) : List Field → Bool
  | [] => true
  | field :: rest => fieldNotTagged P field && noFieldTagged P rest
termination_by structural fields => fields
/-- The field does not carry the tag `P`, nor does any field nested in it. -/
def fieldNotTagged (P : String) : Field → Bool
  | .mk _ tag _ (.struct inner) => decide (tag ≠ P) && noFieldTagged P inner
  | .mk _ tag _ _ => decide (tag ≠ P)
termination_by structural field => field
end

/-! ## The lock discipline of `Setup` and `getCleansedValue` -/

/-- An operation of one goroutine on the shared package state: the mutex `mutex`, the
variable `config`, and the call of a function read from `config`. -/
inductive Op where
  | Lock
  | Unlock
  | ReadConfig
  | WriteConfig
  | CallFunc
deriving DecidableEq, Repr

/-- The operations of `Setup`, in program order: `mutex.Lock()`, `config = c`, and the
deferred `mutex.Unlock()` on return. -/
def Setup.ops : List Op := [.Lock, .WriteConfig, .Unlock]

/-- The operations of `getCleansedValue`, in program order: for a recognized tag, the read
of `config` in `config.StripAll(value)` or `config.SafeUGC(value)` and the call of the
function found there; the function never touches `mutex`. -/
def getCleansedValue.ops (tag : String) : List Op :=
  if tag = StripAll then [.ReadConfig, .CallFunc]
  else if tag = SafeUGC then [.ReadConfig, .CallFunc]
  else []

/-- Lock discipline of a sequence of operations: every read and every write of `config`
happens while the goroutine holds `mutex` (`held`: whether it holds it at the start). -/
def guarded : Bool → List Op → Bool
  | _, [] => true
  | _, .Lock :: ops => guarded true ops
  | _, .Unlock :: ops => guarded false ops
  | held, .ReadConfig :: ops => held && guarded held ops
  | held, .WriteConfig :: ops => held && guarded held ops
  | held, .CallFunc :: ops => guarded held ops

/-! ## The call with its invocations recorded -/

/-- One invocation of a configured function: the policy whose slot is called, and the
argument passed to it. -/
structure Call where
  policy : String
  argument : String
deriving DecidableEq, Repr

/-- Function `getCleansedValue` together with the invocations of configured functions it
makes. -/
def getCleansedValueT (config : Config) (tag : String) (value : String) :
    Run (String × Option Error) × List Call :=
  if tag = StripAll then
    match config.StripAllFunc with
    | some f => (.ret (f value, none), [⟨StripAll, value⟩])
    | none => (.panic, [])
  else if tag = SafeUGC then
    match config.UGCFunc with
    | some g => (.ret (g value, none), [⟨SafeUGC, value⟩])
    | none => (.panic, [])
  else
    (.ret ("", some .ErrInvalidTagValue), [])

/-- The element loop `sanitizeElems` together with the invocations it makes, in order. -/
def sanitizeElemsT (config : Config) (tag : String) (exported : Bool) :
    List String → (List String × Option (Run (Option Error))) × List Call
  | [] => (([], none), [])
  | x :: xs =>
    match getCleansedValueT config tag x with
    | (.panic, calls) => ((x :: xs, some .panic), calls)
    | (.ret (_, some err), calls) => ((x :: xs, some (.ret (some err))), calls)
    | (.ret (cleanedValue, none), calls) =>
      if exported then
        let r := sanitizeElemsT config tag exported xs
        ((cleanedValue :: r.1.1, r.1.2), calls ++ r.2)
      else ((x :: xs, some .panic), calls)

mutual
/-- Function `SanitizeStruct`, read by value, together with the invocations of configured
functions made during the call, in the order in which they are made. -/
def SanitizeStructT (config : Config) :
    List Field → (List Field × Run (Option Error)) × List Call
  | [] => (([], .ret none), [])
  | field :: rest =>
    match sanitizeFieldT config field with
    | ((field1, some r), calls) => ((field1 :: rest, r), calls)
    | ((field1, none), calls) =>
      let r := SanitizeStructT config rest
      ((field1 :: r.1.1, r.1.2), calls ++ r.2)
termination_by structural fields => fields
/-- One iteration of the loop of `SanitizeStruct` together with the invocations it makes. -/
def sanitizeFieldT (config : Config) :
    Field → (Field × Option (Run (Option Error))) × List Call
  | .mk name tag exported value =>
    if tag = "" then
      match value with
      | .struct fields =>
        if exported then
          let r := SanitizeStructT config fields
          match r.1.2 with
          | .ret none => ((.mk name tag exported (.struct r.1.1), none), r.2)
          | err => ((.mk name tag exported (.struct r.1.1), some err), r.2)
        else ((.mk name tag exported value, some .panic), [])
      | _ => ((.mk name tag exported value, none), [])
    else if value.kind = .Struct then
      ((.mk name tag exported value, some (.ret (some .ErrInvalidPropertyType))), [])
    else if value.kind ≠ .String ∧ ¬ (value.kind = .Slice ∧ value.elemKind = some .String) then
      ((.mk name tag exported value, some (.ret (some .ErrInvalidPropertyType))), [])
    else
      match value with
      | .strSlice xs =>
        let r := sanitizeElemsT config tag exported xs
        ((.mk name tag exported (.strSlice r.1.1), r.1.2), r.2)
      | .str s =>
        match getCleansedValueT config tag s with
        | (.panic, calls) => ((.mk name tag exported value, some .panic), calls)
        | (.ret (_, some err), calls) =>
          ((.mk name tag exported value, some (.ret (some err))), calls)
        | (.ret (cleanedValue, none), calls) =>
          if exported then ((.mk name tag exported (.str cleanedValue), none), calls)
          else ((.mk name tag exported value, some .panic), calls)
      | _ => ((.mk name tag exported value, some .panic), [])
termination_by structural field => field
end

/-! ## Further notions used to state the properties -/

mutual
/-- The tagged leaves of a record with their values, flattened depth first in declared
field order, descending into untagged nested structs: a tagged string gives one entry, a
tagged `[]string` one entry per element in index order. -/
def taggedLeaves : List Field → List Call
  | [] => []
  | field :: rest => fieldLeaves field ++ taggedLeaves rest
termination_by structural fields => fields
/-- The tagged leaves of one field. -/
def fieldLeaves : Field → List Call
  | .mk _ tag _ (.struct inner) => if tag = "" then taggedLeaves inner else []
  | .mk _ tag _ (.str s) => if tag = "" then [] else [⟨tag, s⟩]
  | .mk _ tag _ (.strSlice xs) => if tag = "" then [] else xs.map (fun x => ⟨tag, x⟩)
  | .mk _ _ _ (.other _) => []
termination_by structural field => field
end

/-- The record after `k` successive calls of `SanitizeStruct` under the same configuration,
each call working on the state the previous one left. -/
def stateAfter (config : Config) : Nat → List Field → List Field
  | 0, fields => fields
  | k + 1, fields => stateAfter config k (SanitizeStruct config fields).1

mutual
/-- The error of the first offending field, as the specification words the failure
condition: walk the fields in declared order, descending into untagged nested structs; a
field offends when it is tagged and its kind is neither string nor slice of string
(`ErrInvalidPropertyType`), or it is a tagged string, or a tagged non-empty `[]string`,
whose tag is neither "stripall" nor "safeugc" (`ErrInvalidTagValue`). -/
def firstOffence : List Field → Option Error
  | [] => none
  | field :: rest =>
    match fieldOffence field with
    | some err => some err
    | none => firstOffence rest
termination_by structural fields => fields
/-- The error of the first offending field met at or inside one field. -/
def fieldOffence : Field → Option Error
  | .mk _ tag _ (.struct inner) =>
    if tag = "" then firstOffence inner else some .ErrInvalidPropertyType
  | .mk _ tag _ (.str _) =>
    if tag = "" then none
    else if tag = "stripall" ∨ tag = "safeugc" then none
    else some .ErrInvalidTagValue
  | .mk _ tag _ (.strSlice xs) =>
    if tag = "" then none
    else if xs = [] then none
    else if tag = "stripall" ∨ tag = "safeugc" then none
    else some .ErrInvalidTagValue
  | .mk _ tag _ (.other _) =>
    if tag = "" then none else some .ErrInvalidPropertyType
termination_by structural field => field
end

mutual
/-- Every field of the record is exported, at any nesting depth. -/
def allExported : List Field → Bool
  | [] => true
  | field :: rest => fieldAllExported field && allExported rest
termination_by structural fields => fields
/-- The field is exported, and so is every field nested in it. -/
def fieldAllExported : Field → Bool
  | .mk _ _ exported (.struct inner) => exported && allExported inner
  | .mk _ _ exported _ => exported
termination_by structural field => field
end

/-! ## The call on a record laid out in memory

The definitions above read a record by value: every field owns its contents. In Go the
writes of `SanitizeStruct` go through `reflect.Value`s that point into storage, and a
`[]string` field is a slice header over a backing array that other fields may share. The
definitions below keep the storage apart from the record: memory maps addresses to
strings, a string field is the address of its string, a `[]string` field is the window
`base, base + 1, ..., base + len - 1` of its slice header, and two fields share storage
when their addresses coincide. -/

/-- The memory holding the strings of a record, by address. -/
abbrev Mem := Nat → String

/-- The addresses `base, ..., base + len - 1` of a slice or array of `len` strings. -/
def window (base len : Nat) : List Nat := List.range' base len

/-- The strings held in memory at the addresses of a window, in order. -/
def contents (mem : Mem) (base len : Nat) : List String := (window base len).map mem

/-- Field values of a kind that `SanitizeStruct` never reads or writes, laid out in memory:
an array `[len]string` occupies a window, a `*string` holds the address it points to. -/
inductive MOther where
  | int (n : Int)
  | bool (b : Bool)
  | intSlice (xs : List Int)
  | strArray (base len : Nat)
  | strPtr (target : Option Nat)
deriving DecidableEq, Repr

/-- Kind `reflect.Value.Kind()` of such a value. -/
def MOther.kind : MOther → Kind
  | .int _ => .Int
  | .bool _ => .Bool
  | .intSlice _ => .Slice
  | .strArray _ _ => .Array
  | .strPtr _ => .Ptr

/-- Element kind `Type().Elem().Kind()` of such a value, where it has one. -/
def MOther.elemKind : MOther → Option Kind
  | .int _ => none
  | .bool _ => none
  | .intSlice _ => some .Int
  | .strArray _ _ => some .String
  | .strPtr _ => some .String

/-- The addresses whose strings make up the contents of such a value. -/
def MOther.footprint : MOther → List Nat
  | .strArray base len => window base len
  | .strPtr (some a) => [a]
  | _ => []

/-- The value read from memory. -/
def MOther.view (mem : Mem) : MOther → Other
  | .int n => .int n
  | .bool b => .bool b
  | .intSlice xs => .intSlice xs
  | .strArray base len => .strArray (contents mem base len)
  | .strPtr target => .strPtr (target.map mem)

mutual
/-- A field value laid out in memory: a string at an address, a `[]string` slice header
(`len` elements from address `base`), a nested struct, or something else. -/
inductive MValue where
  | str (addr : Nat)
  | strSlice (base len : Nat)
  | struct (fields : List MField)
  | other (o : MOther)
/-- A struct field laid out in memory, as seen through reflection. -/
inductive MField where
  | mk (Name : String) (Tag : String) (exported : Bool) (value : MValue)
end

/-- Kind `field.Kind()`. -/
def MValue.kind : MValue → Kind
  | .str _ => .String
  | .strSlice _ _ => .Slice
  | .struct _ => .Struct
  | .other o => o.kind

/-- Element kind `field.Type().Elem().Kind()`, where the type has an element type. -/
def MValue.elemKind : MValue → Option Kind
  | .str _ => none
  | .strSlice _ _ => some .String
  | .struct _ => none
  | .other o => o.elemKind

/-- State after the loop over the elements of a slice, or after one iteration of the loop
over the fields: the memory, how the iteration leaves `SanitizeStruct` (`none`: it goes
on), and the invocations of configured functions made, in order. -/
structure Step where
  mem : Mem
  stop : Option (Run (Option Error))
  calls : List Call

/-- State after a call of `SanitizeStruct`: the memory, how the call ended, and the
invocations of configured functions made, in order. -/
structure Exec where
  mem : Mem
  outcome : Run (Option Error)
  calls : List Call

/-- The inner loop `for j := 0; j < field.Len(); j++` on memory, with `len` elements left
from address `addr` on: `field.Index(j).String()` reads the element from memory and
`field.Index(j).SetString(cleanedValue)` writes it back, through the slice header. -/
def sanitizeElemsM (config : Config) (tag : String) (exported : Bool) :
    Nat → Nat → Mem → Step
  | 0, _, mem => ⟨mem, none, []⟩
  | len + 1, addr, mem =>
    match getCleansedValueT config tag (mem addr) with
    | (.panic, calls) => ⟨mem, some .panic, calls⟩
    | (.ret (_, some err), calls) => ⟨mem, some (.ret (some err)), calls⟩
    | (.ret (cleanedValue, none), calls) =>
      if exported then
        let r := sanitizeElemsM config tag exported len (addr + 1)
          (Function.update mem addr cleanedValue)
        ⟨r.mem, r.stop, calls ++ r.calls⟩
      else ⟨mem, some .panic, calls⟩

mutual
/-- Function `SanitizeStruct(s interface{}) error` on a struct laid out in memory: the loop
over the fields from the current field on, reading and writing the memory in place. -/
def SanitizeStructM (config : Config) : List MField → Mem → Exec
  | [], mem => ⟨mem, .ret none, []⟩
  | field :: rest, mem =>
    match sanitizeFieldM config field mem with
    | ⟨mem1, some r, calls⟩ => ⟨mem1, r, calls⟩
    | ⟨mem1, none, calls⟩ =>
      let r := SanitizeStructM config rest mem1
      ⟨r.mem, r.outcome, calls ++ r.calls⟩
termination_by structural fields => fields
/-- One iteration of the loop of `SanitizeStruct` on memory. -/
def sanitizeFieldM (config : Config) : MField → Mem → Step
  | .mk _ tag exported value, mem =>
    if tag = "" then
      match value with
      | .struct fields =>
        -- `field.Addr().Interface()` panics on a value obtained from an unexported field
        if exported then
          let r := SanitizeStructM config fields mem
          match r.outcome with
          | .ret none => ⟨r.mem, none, r.calls⟩
          | err => ⟨r.mem, some err, r.calls⟩
        else ⟨mem, some .panic, []⟩
      | _ => ⟨mem, none, []⟩
    else if value.kind = .Struct then
      ⟨mem, some (.ret (some .ErrInvalidPropertyType)), []⟩
    else if value.kind ≠ .String ∧ ¬ (value.kind = .Slice ∧ value.elemKind = some .String) then
      ⟨mem, some (.ret (some .ErrInvalidPropertyType)), []⟩
    else
      match value with
      | .strSlice base len => sanitizeElemsM config tag exported len base mem
      | .str addr =>
        match getCleansedValueT config tag (mem addr) with
        | (.panic, calls) => ⟨mem, some .panic, calls⟩
        | (.ret (_, some err), calls) => ⟨mem, some (.ret (some err)), calls⟩
        | (.ret (cleanedValue, none), calls) =>
          -- `field.SetString` panics on a value obtained from an unexported field
          if exported then ⟨Function.update mem addr cleanedValue, none, calls⟩
          else ⟨mem, some .panic, calls⟩
      | _ => ⟨mem, some .panic, []⟩
termination_by structural field => field
end

mutual
/-- The record read from memory, field by field. -/
def view (mem : Mem) : List MField → List Field
  | [] => []
  | field :: rest => viewField mem field :: view mem rest
termination_by structural fields => fields
/-- One field read from memory. -/
def viewField (mem : Mem) : MField → Field
  | .mk n t e (.str addr) => .mk n t e (.str (mem addr))
  | .mk n t e (.strSlice base len) => .mk n t e (.strSlice (contents mem base len))
  | .mk n t e (.struct fields) => .mk n t e (.struct (view mem fields))
  | .mk n t e (.other o) => .mk n t e (.other (o.view mem))
termination_by structural field => field
end

mutual
/-- The addresses whose strings make up the contents of the fields of a record. -/
def footprint : List MField → List Nat
  | [] => []
  | field :: rest => fieldFootprint field ++ footprint rest
termination_by structural fields => fields
/-- The addresses whose strings make up the contents of one field. -/
def fieldFootprint : MField → List Nat
  | .mk _ _ _ (.str addr) => [addr]
  | .mk _ _ _ (.strSlice base len) => window base len
  | .mk _ _ _ (.struct fields) => footprint fields
  | .mk _ _ _ (.other o) => o.footprint
termination_by structural field => field
end

mutual
/-- The addresses of the tagged strings and of the elements of the tagged `[]string`
fields of a record, descending into untagged nested structs: the storage that a call may
write. -/
def written : List MField → List Nat
  | [] => []
  | field :: rest => fieldWritten field ++ written rest
termination_by structural fields => fields
/-- The storage that one loop iteration on a field may write. -/
def fieldWritten : MField → List Nat
  | .mk _ tag _ (.str addr) => if tag = "" then [] else [addr]
  | .mk _ tag _ (.strSlice base len) => if tag = "" then [] else window base len
  | .mk _ tag _ (.struct fields) => if tag = "" then written fields else []
  | .mk _ _ _ (.other _) => []
termination_by structural field => field
end

mutual
/-- No tagged string or `[]string` field of the record shares storage with another field:
for each field, in declared order and at every depth, the storage a call may write through
it is no part of the contents of a later field, and its contents are no part of the
storage a call may write through a later field. -/
def separated : List MField → Bool
  | [] => true
  | field :: rest =>
    fieldSeparated field && separated rest &&
      decide (∀ a ∈ fieldWritten field, a ∉ footprint rest) &&
      decide (∀ a ∈ fieldFootprint field, a ∉ written rest)
termination_by structural fields => fields
/-- The fields nested in one field are separated. -/
def fieldSeparated : MField → Bool
  | .mk _ _ _ (.struct fields) => separated fields
  | .mk _ _ _ _ => true
termination_by structural field => field
end

/-- The field laid out in memory that is addressed by a path of field indices. -/
def fieldAtM : List MField → List Nat → Option MField
  | _, [] => none
  | fields, [i] => fields[i]?
  | fields, i :: j :: p =>
    match fields[i]? with
    | some (.mk _ _ _ (.struct inner)) => fieldAtM inner (j :: p)
    | _ => none

theorem getCleansedValue_eq (config : Config) (tag value : String) :
    getCleansedValue config tag value =
      match resolve config tag with
      | .fn F => .ret (F value, none)
      | .invalid => .ret ("", some .ErrInvalidTagValue)
      | .unset => .panic := by
  unfold getCleansedValue resolve Config.StripAll Config.SafeUGC
  by_cases h1 : tag = StripAll
  · cases h : config.StripAllFunc <;> simp [h1, h]
  · by_cases h2 : tag = SafeUGC
    · have hne : ¬ SafeUGC = StripAll := by decide
      cases h : config.UGCFunc <;> simp [h2, h, hne]
    · simp [h1, h2]

theorem sanitizeElems_eq (config : Config) (tag : String) (exported : Bool) (xs : List String) :
    sanitizeElems config tag exported xs =
      match xs with
      | [] => ([], none)
      | _ :: _ =>
        match resolve config tag with
        | .fn F => if exported then (xs.map F, none) else (xs, some .panic)
        | .invalid => (xs, some (.ret (some .ErrInvalidTagValue)))
        | .unset => (xs, some .panic) := by
  induction xs with
  | nil => simp [sanitizeElems]
  | cons x xs ih =>
    simp only [sanitizeElems, getCleansedValue_eq]
    cases h : resolve config tag with
    | invalid => simp
    | unset => simp
    | fn F =>
      cases exported with
      | false => simp
      | true =>
        simp only [if_true, ih, h]
        cases xs <;> simp

theorem Other.kind_ne_String (o : Other) : o.kind ≠ .String := by
  cases o <;> simp [Other.kind]

theorem Other.kind_ne_Struct (o : Other) : o.kind ≠ .Struct := by
  cases o <;> simp [Other.kind]

theorem Other.not_strSlice (o : Other) : ¬ (o.kind = .Slice ∧ o.elemKind = some .String) := by
  cases o <;> simp [Other.kind, Other.elemKind]

theorem SanitizeStruct_nil (config : Config) : SanitizeStruct config [] = ([], .ret none) := by
  simp [SanitizeStruct]

theorem SanitizeStruct_cons (config : Config) (field : Field) (rest : List Field) :
    SanitizeStruct config (field :: rest) =
      match (sanitizeField config field).2 with
      | some r => ((sanitizeField config field).1 :: rest, r)
      | none => ((sanitizeField config field).1 :: (SanitizeStruct config rest).1,
          (SanitizeStruct config rest).2) := by
  rw [SanitizeStruct]
  rcases h : sanitizeField config field with ⟨f1, _ | r⟩ <;> simp

theorem sanitizeField_untagged_struct (config : Config) (n : String) (e : Bool)
    (inner : List Field) :
    sanitizeField config (.mk n "" e (.struct inner)) =
      if e then
        (.mk n "" e (.struct (SanitizeStruct config inner).1),
          if (SanitizeStruct config inner).2 = .ret none then none
          else some (SanitizeStruct config inner).2)
      else (.mk n "" e (.struct inner), some .panic) := by
  rw [sanitizeField]
  cases e with
  | false => simp
  | true =>
    simp only [if_true]
    rcases h : (SanitizeStruct config inner).2 with (_ | err) | _ <;> simp [h]

theorem sanitizeField_untagged_leaf (config : Config) (n : String) (e : Bool) (v : Value)
    (hv : v.kind ≠ .Struct) :
    sanitizeField config (.mk n "" e v) = (.mk n "" e v, none) := by
  cases v <;> simp_all [Value.kind, sanitizeField]

theorem sanitizeField_tagged_badKind (config : Config) (n t : String) (e : Bool) (v : Value)
    (ht : t ≠ "")
    (hv : v.kind ≠ .String ∧ ¬ (v.kind = .Slice ∧ v.elemKind = some .String)) :
    sanitizeField config (.mk n t e v) =
      (.mk n t e v, some (.ret (some .ErrInvalidPropertyType))) := by
  cases v <;> simp_all [Value.kind, Value.elemKind, sanitizeField]

theorem sanitizeField_tagged_str (config : Config) (n t : String) (e : Bool) (s : String)
    (ht : t ≠ "") :
    sanitizeField config (.mk n t e (.str s)) =
      match resolve config t with
      | .fn F => if e then (.mk n t e (.str (F s)), none) else (.mk n t e (.str s), some .panic)
      | .invalid => (.mk n t e (.str s), some (.ret (some .ErrInvalidTagValue)))
      | .unset => (.mk n t e (.str s), some .panic) := by
  rw [sanitizeField]
  simp only [ht, if_false, Value.kind, getCleansedValue_eq]
  cases resolve config t <;> simp

theorem sanitizeField_tagged_strSlice (config : Config) (n t : String) (e : Bool)
    (xs : List String) (ht : t ≠ "") :
    sanitizeField config (.mk n t e (.strSlice xs)) =
      (.mk n t e (.strSlice (sanitizeElems config t e xs).1), (sanitizeElems config t e xs).2) := by
  rw [sanitizeField]
  simp [ht, Value.kind, Value.elemKind]

theorem sanitizeElems_ne_ret_none (config : Config) (t : String) (e : Bool) (xs : List String) :
    (sanitizeElems config t e xs).2 ≠ some (.ret none) := by
  rw [sanitizeElems_eq]
  cases xs with
  | nil => simp
  | cons x xs => cases resolve config t <;> cases e <;> simp

theorem sanitizeField_ne_ret_none (config : Config) (field : Field) :
    (sanitizeField config field).2 ≠ some (.ret none) := by
  obtain ⟨n, t, e, v⟩ := field
  by_cases ht : t = ""
  · subst ht
    cases v with
    | struct inner =>
      rw [sanitizeField_untagged_struct]
      cases e <;> simp
    | str s => rw [sanitizeField_untagged_leaf _ _ _ _ (by simp [Value.kind])]; simp
    | strSlice xs => rw [sanitizeField_untagged_leaf _ _ _ _ (by simp [Value.kind])]; simp
    | other o =>
      rw [sanitizeField_untagged_leaf _ _ _ _ (by simpa [Value.kind] using o.kind_ne_Struct)]; simp
  · cases v with
    | struct inner =>
      rw [sanitizeField_tagged_badKind _ _ _ _ _ ht (by simp [Value.kind])]; simp
    | other o =>
      rw [sanitizeField_tagged_badKind _ _ _ _ _ ht
        ⟨by simpa [Value.kind] using o.kind_ne_String,
          by simpa [Value.kind, Value.elemKind] using o.not_strSlice⟩]; simp
    | str s =>
      rw [sanitizeField_tagged_str _ _ _ _ _ ht]
      cases resolve config t <;> cases e <;> simp
    | strSlice xs =>
      rw [sanitizeField_tagged_strSlice _ _ _ _ _ ht]
      exact sanitizeElems_ne_ret_none _ _ _ _

theorem SanitizeStruct_cons_nil_iff (config : Config) (field : Field) (rest : List Field) :
    (SanitizeStruct config (field :: rest)).2 = .ret none ↔
      (sanitizeField config field).2 = none ∧ (SanitizeStruct config rest).2 = .ret none := by
  rw [SanitizeStruct_cons]
  have := sanitizeField_ne_ret_none config field
  rcases h : (sanitizeField config field).2 with _ | r
  · simp
  · simp [h] at this ⊢
    exact this

theorem SanitizeStruct_append (config : Config) (xs ys : List Field) :
    SanitizeStruct config (xs ++ ys) =
      if (SanitizeStruct config xs).2 = .ret none then
        ((SanitizeStruct config xs).1 ++ (SanitizeStruct config ys).1,
          (SanitizeStruct config ys).2)
      else ((SanitizeStruct config xs).1 ++ ys, (SanitizeStruct config xs).2) := by
  induction xs with
  | nil => simp [SanitizeStruct_nil]
  | cons x xs ih =>
    have hne := sanitizeField_ne_ret_none config x
    rw [List.cons_append, SanitizeStruct_cons, SanitizeStruct_cons, ih]
    rcases h : (sanitizeField config x).2 with _ | r
    · simp only
      split_ifs <;> simp
    · simp only [h] at hne
      simp only
      rw [if_neg (by simpa using hne)]
      simp

theorem SanitizeStruct_length (config : Config) (fields : List Field) :
    (SanitizeStruct config fields).1.length = fields.length := by
  induction fields with
  | nil => simp [SanitizeStruct_nil]
  | cons x xs ih =>
    rw [SanitizeStruct_cons]
    rcases h : (sanitizeField config x).2 with _ | r <;> simp [ih]

/-! ## Paths, and the state after a call that returned nil -/

theorem fieldAt_single (fields : List Field) (i : Nat) : fieldAt fields [i] = fields[i]? := by
  simp [fieldAt]

theorem fieldAt_cons_cons (fields : List Field) (i j : Nat) (p : List Nat) :
    fieldAt fields (i :: j :: p) =
      match fields[i]? with
      | some (.mk _ _ _ (.struct inner)) => fieldAt inner (j :: p)
      | _ => none := by
  simp [fieldAt]

/-- A path of length at least two goes through a struct field. -/
theorem fieldAt_cons_cons_eq_some {fields : List Field} {i j : Nat} {p : List Nat} {fd : Field}
    (h : fieldAt fields (i :: j :: p) = some fd) :
    ∃ n t e inner, fields[i]? = some (.mk n t e (.struct inner)) ∧
      fieldAt inner (j :: p) = some fd := by
  rw [fieldAt_cons_cons] at h
  split at h
  · next n t e inner hi => exact ⟨n, t, e, inner, hi, h⟩
  · simp at h

theorem fieldAt_through {fields : List Field} {i j : Nat} {p : List Nat} {n t : String}
    {e : Bool} {inner : List Field} (h : fields[i]? = some (.mk n t e (.struct inner))) :
    fieldAt fields (i :: j :: p) = fieldAt inner (j :: p) := by
  rw [fieldAt_cons_cons, h]

/-- A field that is processed without leaving the function, if it holds a struct, is
untagged and exported and the recursive call on the struct returned nil. -/
theorem sanitizeField_struct_none {config : Config} {n t : String} {e : Bool}
    {inner : List Field} (h : (sanitizeField config (.mk n t e (.struct inner))).2 = none) :
    t = "" ∧ e = true ∧ (SanitizeStruct config inner).2 = .ret none ∧
      (sanitizeField config (.mk n t e (.struct inner))).1 =
        .mk n t e (.struct (SanitizeStruct config inner).1) := by
  by_cases ht : t = ""
  · subst ht
    rw [sanitizeField_untagged_struct] at h ⊢
    cases e with
    | false => simp at h
    | true =>
      simp only [if_true] at h ⊢
      by_cases hr : (SanitizeStruct config inner).2 = .ret none
      · simp [hr]
      · simp [hr] at h
  · rw [sanitizeField_tagged_badKind _ _ _ _ _ ht (by simp [Value.kind])] at h
    simp at h

/-- After a call that returned nil, field `i` holds what one loop iteration makes of it. -/
theorem getElem?_of_nil (config : Config) :
    ∀ (fields : List Field) (i : Nat) (fd : Field),
      (SanitizeStruct config fields).2 = .ret none → fields[i]? = some fd →
      (SanitizeStruct config fields).1[i]? = some (sanitizeField config fd).1 ∧
        (sanitizeField config fd).2 = none := by
  intro fields
  induction fields with
  | nil => intro i fd _ h; simp at h
  | cons x xs ih =>
    intro i fd hnil hi
    obtain ⟨hx, hxs⟩ := (SanitizeStruct_cons_nil_iff config x xs).1 hnil
    rw [SanitizeStruct_cons, hx]
    cases i with
    | zero =>
      simp at hi
      subst hi
      simp [hx]
    | succ k =>
      simp at hi
      simpa using ih k fd hxs hi

/-- After a call that returned nil, every field at every depth holds what one loop
iteration makes of it, and that iteration did not leave the function. -/
theorem fieldAt_of_nil (config : Config) :
    ∀ (p : List Nat) (fields : List Field) (fd : Field),
      (SanitizeStruct config fields).2 = .ret none → fieldAt fields p = some fd →
      fieldAt (SanitizeStruct config fields).1 p = some (sanitizeField config fd).1 ∧
        (sanitizeField config fd).2 = none := by
  intro p
  induction p with
  | nil => intro fields fd _ h; simp [fieldAt] at h
  | cons i tl ih =>
    intro fields fd hnil hp
    cases tl with
    | nil =>
      rw [fieldAt_single] at hp ⊢
      exact getElem?_of_nil config fields i fd hnil hp
    | cons j p =>
      obtain ⟨n, t, e, inner, hi, hin⟩ := fieldAt_cons_cons_eq_some hp
      obtain ⟨ho, hnone⟩ := getElem?_of_nil config fields i _ hnil hi
      obtain ⟨_, _, hinner, hfd⟩ := sanitizeField_struct_none hnone
      rw [hfd] at ho
      rw [fieldAt_through ho]
      exact ih inner fd hinner hin

theorem resolve_stripall (f g : String → String) :
    resolve (Config.of f g) "stripall" = .fn f := by
  simp [resolve, StripAll, Config.of]

theorem resolve_safeugc (f g : String → String) :
    resolve (Config.of f g) "safeugc" = .fn g := by
  have h : ¬ ("safeugc" = "stripall") := by decide
  simp [resolve, StripAll, SafeUGC, Config.of, h]

/-- C1. After a call that returned nil under the configuration with functions `f` and `g`,
every string field tagged "stripall", at any depth, holds `f` of its original value and
every string field tagged "safeugc" holds `g` of its original value. -/
theorem string_field_holds_selected_function (f g : String → String) (fields : List Field)
    (hnil : (SanitizeStruct (Config.of f g) fields).2 = .ret none)
    (p : List Nat) (n : String) (e : Bool) (s : String) :
    (fieldAt fields p = some (.mk n "stripall" e (.str s)) →
      fieldAt (SanitizeStruct (Config.of f g) fields).1 p =
        some (.mk n "stripall" e (.str (f s)))) ∧
    (fieldAt fields p = some (.mk n "safeugc" e (.str s)) →
      fieldAt (SanitizeStruct (Config.of f g) fields).1 p =
        some (.mk n "safeugc" e (.str (g s)))) := by
  constructor
  · intro hp
    obtain ⟨ho, hnone⟩ := fieldAt_of_nil _ p fields _ hnil hp
    rw [ho]
    rw [sanitizeField_tagged_str _ _ _ _ _ (by decide), resolve_stripall] at hnone ⊢
    cases e <;> simp_all
  · intro hp
    obtain ⟨ho, hnone⟩ := fieldAt_of_nil _ p fields _ hnil hp
    rw [ho]
    rw [sanitizeField_tagged_str _ _ _ _ _ (by decide), resolve_safeugc] at hnone ⊢
    cases e <;> simp_all

/-- Witness for C1 on a record with one field of each policy, one of them nested. -/
theorem string_field_holds_selected_function_witness :
    fieldAt (SanitizeStruct (Config.of (fun s => s ++ "!") (fun s => s ++ "?"))
        [.mk "Name" "stripall" true (.str "a"),
         .mk "Inner" "" true (.struct [.mk "Bio" "safeugc" true (.str "b")])]).1 [1, 0] =
      some (.mk "Bio" "safeugc" true (.str "b?")) :=
  (string_field_holds_selected_function (fun s => s ++ "!") (fun s => s ++ "?")
    [.mk "Name" "stripall" true (.str "a"),
     .mk "Inner" "" true (.struct [.mk "Bio" "safeugc" true (.str "b")])]
    (by decide) [1, 0] "Bio" true "b").2 (by rfl)

theorem arrivesAt_single (config : Config) (fields : List Field) (i : Nat) :
    arrivesAt config fields [i] = true ↔
      i < fields.length ∧ (SanitizeStruct config (fields.take i)).2 = .ret none := by
  simp [arrivesAt]

theorem arrivesAt_cons_cons (config : Config) (fields : List Field) (i j : Nat) (p : List Nat) :
    arrivesAt config fields (i :: j :: p) = true ↔
      (SanitizeStruct config (fields.take i)).2 = .ret none ∧
        ∃ n inner, fields[i]? = some (.mk n "" true (.struct inner)) ∧
          arrivesAt config inner (j :: p) = true := by
  rw [arrivesAt]
  constructor
  · intro h
    simp only [Bool.and_eq_true, decide_eq_true_eq] at h
    obtain ⟨h1, h2⟩ := h
    refine ⟨h1, ?_⟩
    split at h2
    · next n t e inner hi =>
      simp only [Bool.and_eq_true, decide_eq_true_eq] at h2
      obtain ⟨⟨ht, he⟩, ha⟩ := h2
      subst ht; subst he
      exact ⟨n, inner, hi, ha⟩
    · simp at h2
  · rintro ⟨h1, n, inner, hi, ha⟩
    simp [h1, hi, ha]

/-- The value of `fieldAt` along a path depends only on the field the path starts with. -/
theorem fieldAt_congr {fs gs : List Field} {i : Nat} (h : fs[i]? = gs[i]?) (q : List Nat) :
    fieldAt fs (i :: q) = fieldAt gs (i :: q) := by
  cases q with
  | nil => simp [fieldAt_single, h]
  | cons j q => simp [fieldAt_cons_cons, h]

/-- The state and outcome of a call in terms of the first field whose iteration leaves the
function: when the fields before field `i` are processed without leaving and the iteration
on field `i` leaves with `r`, the call ends with `r`, the fields before `i` hold what their
iteration made of them, field `i` holds what its iteration left, and later fields are
untouched. -/
theorem SanitizeStruct_stop (config : Config) :
    ∀ (fields : List Field) (i : Nat) (fd : Field) (r : Run (Option Error)),
      (SanitizeStruct config (fields.take i)).2 = .ret none → fields[i]? = some fd →
      (sanitizeField config fd).2 = some r →
      (SanitizeStruct config fields).2 = r ∧
      (SanitizeStruct config fields).1[i]? = some (sanitizeField config fd).1 ∧
      (∀ j, i < j → (SanitizeStruct config fields).1[j]? = fields[j]?) ∧
      (∀ j fj, j < i → fields[j]? = some fj →
        (SanitizeStruct config fields).1[j]? = some (sanitizeField config fj).1 ∧
          (sanitizeField config fj).2 = none) := by
  intro fields
  induction fields with
  | nil => intro i fd r _ h; simp at h
  | cons x xs ih =>
    intro i fd r hpre hi hr
    cases i with
    | zero =>
      simp at hi
      subst hi
      rw [SanitizeStruct_cons, hr]
      refine ⟨rfl, by simp, ?_, ?_⟩
      · intro j hj
        obtain ⟨k, rfl⟩ := Nat.exists_eq_succ_of_ne_zero (Nat.pos_iff_ne_zero.1 hj)
        simp
      · intro j fj hj; omega
    | succ k =>
      simp only [List.take_succ_cons] at hpre
      obtain ⟨hx, hxs⟩ := (SanitizeStruct_cons_nil_iff config x _).1 hpre
      simp at hi
      obtain ⟨h1, h2, h3, h4⟩ := ih k fd r hxs hi hr
      rw [SanitizeStruct_cons, hx]
      refine ⟨h1, by simpa using h2, ?_, ?_⟩
      · intro j hj
        obtain ⟨j', rfl⟩ := Nat.exists_eq_succ_of_ne_zero (by omega : j ≠ 0)
        simpa using h3 j' (by omega)
      · intro j fj hj hfj
        cases j with
        | zero =>
          simp at hfj
          subst hfj
          simp [hx]
        | succ j' =>
          simp at hfj
          simpa using h4 j' fj (by omega) hfj

theorem before_nil_right (q : List Nat) : before q [] = false := by
  cases q <;> simp [before]

theorem before_cons_cons (i j : Nat) (q p : List Nat) :
    before (i :: q) (j :: p) = true ↔ i < j ∨ (i = j ∧ before q p = true) := by
  simp [before]

/-- A field whose iteration did not leave the function has been processed at every depth. -/
theorem fieldAt_of_processed (config : Config) {fs out : List Field} {j : Nat}
    (h : ∀ fj, fs[j]? = some fj →
      out[j]? = some (sanitizeField config fj).1 ∧ (sanitizeField config fj).2 = none)
    (q : List Nat) (fq : Field) (hfq : fieldAt fs (j :: q) = some fq) :
    fieldAt out (j :: q) = some (sanitizeField config fq).1 ∧
      (sanitizeField config fq).2 = none := by
  cases q with
  | nil =>
    rw [fieldAt_single] at hfq ⊢
    exact h fq hfq
  | cons k q =>
    obtain ⟨n, t, e, inner, hj, hin⟩ := fieldAt_cons_cons_eq_some hfq
    obtain ⟨ho, hnone⟩ := h _ hj
    obtain ⟨_, _, hinner, hfd⟩ := sanitizeField_struct_none hnone
    rw [hfd] at ho
    rw [fieldAt_through ho]
    exact fieldAt_of_nil config _ inner fq hinner hin

/-- The state and outcome of a call in terms of the field at which the traversal stops.
When the traversal arrives at the field at path `p` and the iteration on that field leaves
the function with `r` without changing the field, the call ends with `r`; the field at `p`
and every field not visited before it are as they were; every field that is not a nested
struct and is visited before `p` holds what its iteration made of it. -/
theorem traversal_stop (config : Config) :
    ∀ (p : List Nat) (fields : List Field) (fd : Field) (r : Run (Option Error)),
      arrivesAt config fields p = true → fieldAt fields p = some fd →
      sanitizeField config fd = (fd, some r) →
      (SanitizeStruct config fields).2 = r ∧
      (∀ q, before q p = false →
        fieldAt (SanitizeStruct config fields).1 q = fieldAt fields q) ∧
      (∀ q fq, before q p = true → fieldAt fields q = some fq → fq.value.kind ≠ .Struct →
        fieldAt (SanitizeStruct config fields).1 q = some (sanitizeField config fq).1 ∧
          (sanitizeField config fq).2 = none) := by
  intro p
  induction p with
  | nil => intro fields fd r ha; simp [arrivesAt] at ha
  | cons i tl ih =>
    intro fields fd r ha hp hs
    cases tl with
    | nil =>
      obtain ⟨_, hpre⟩ := (arrivesAt_single _ _ _).1 ha
      rw [fieldAt_single] at hp
      have hr : (sanitizeField config fd).2 = some r := by rw [hs]
      have hfst : (sanitizeField config fd).1 = fd := by rw [hs]
      obtain ⟨h1, h2, h3, h4⟩ := SanitizeStruct_stop config fields i fd r hpre hp hr
      rw [hfst] at h2
      refine ⟨h1, ?_, ?_⟩
      · intro q hq
        cases q with
        | nil => simp [fieldAt]
        | cons j q =>
          apply fieldAt_congr
          have hji : ¬ j < i := by
            intro hlt
            have : before (j :: q) [i] = true := (before_cons_cons _ _ _ _).2 (Or.inl hlt)
            simp [this] at hq
          rcases Nat.lt_or_eq_of_le (not_lt.1 hji) with h | h
          · exact h3 j h
          · subst h; rw [h2, hp]
      · intro q fq hq hfq _
        cases q with
        | nil => simp [fieldAt] at hfq
        | cons j q =>
          have hj : j < i := by
            rcases (before_cons_cons _ _ _ _).1 hq with h | ⟨_, h⟩
            · exact h
            · simp [before_nil_right] at h
          exact fieldAt_of_processed config (fun fj hfj => h4 j fj hj hfj) q fq hfq
    | cons k p =>
      obtain ⟨hpre, n, inner, hi, hain⟩ := (arrivesAt_cons_cons _ _ _ _ _).1 ha
      rw [fieldAt_through hi] at hp
      obtain ⟨g1, g2, g3⟩ := ih inner fd r hain hp hs
      have hrne : r ≠ .ret none := by
        have := sanitizeField_ne_ret_none config fd
        rw [hs] at this
        simpa using this
      have hsf : sanitizeField config (.mk n "" true (.struct inner)) =
          (.mk n "" true (.struct (SanitizeStruct config inner).1), some r) := by
        rw [sanitizeField_untagged_struct]
        simp [g1, hrne]
      obtain ⟨h1, h2, h3, h4⟩ :=
        SanitizeStruct_stop config fields i _ r hpre hi (by rw [hsf])
      rw [hsf] at h2
      refine ⟨h1, ?_, ?_⟩
      · intro q hq
        cases q with
        | nil => simp [fieldAt]
        | cons j q =>
          rcases lt_trichotomy j i with h | h | h
          · have : before (j :: q) (i :: k :: p) = true :=
              (before_cons_cons _ _ _ _).2 (Or.inl h)
            simp [this] at hq
          · subst h
            cases q with
            | nil =>
              have : before [j] (j :: k :: p) = true := by simp [before]
              simp [this] at hq
            | cons j2 q =>
              rw [fieldAt_through h2, fieldAt_through hi]
              apply g2
              cases hb : before (j2 :: q) (k :: p) with
              | false => rfl
              | true =>
                have : before (j :: j2 :: q) (j :: k :: p) = true :=
                  (before_cons_cons _ _ _ _).2 (Or.inr ⟨rfl, hb⟩)
                simp [this] at hq
          · exact fieldAt_congr (h3 j h) _
      · intro q fq hq hfq hk
        cases q with
        | nil => simp [fieldAt] at hfq
        | cons j q =>
          rcases (before_cons_cons _ _ _ _).1 hq with h | ⟨h, hb⟩
          · exact fieldAt_of_processed config (fun fj hfj => h4 j fj h hfj) q fq hfq
          · subst h
            cases q with
            | nil =>
              rw [fieldAt_single, hi] at hfq
              simp at hfq
              subst hfq
              simp [Field.value, Value.kind] at hk
            | cons j2 q =>
              rw [fieldAt_through h2]
              rw [fieldAt_through hi] at hfq
              exact g3 _ fq hb hfq hk

theorem fieldAt_cons_succ (x : Field) (xs : List Field) (i : Nat) (tl : List Nat) :
    fieldAt (x :: xs) ((i + 1) :: tl) = fieldAt xs (i :: tl) := by
  cases tl <;> simp [fieldAt]

theorem arrivesAt_succ {config : Config} {x : Field} {xs : List Field} {i : Nat}
    {tl : List Nat} (hx : (sanitizeField config x).2 = none)
    (h : arrivesAt config xs (i :: tl) = true) :
    arrivesAt config (x :: xs) ((i + 1) :: tl) = true := by
  cases tl with
  | nil =>
    rw [arrivesAt_single] at h ⊢
    simp only [List.take_succ_cons, List.length_cons, SanitizeStruct_cons_nil_iff]
    exact ⟨by omega, hx, h.2⟩
  | cons j p =>
    rw [arrivesAt_cons_cons] at h ⊢
    simp only [List.take_succ_cons, SanitizeStruct_cons_nil_iff, List.getElem?_cons_succ]
    exact ⟨⟨hx, h.1⟩, h.2⟩

theorem arrivesAt_zero_struct {config : Config} {n : String} {inner xs : List Field}
    {j : Nat} {p : List Nat} (h : arrivesAt config inner (j :: p) = true) :
    arrivesAt config (.mk n "" true (.struct inner) :: xs) (0 :: j :: p) = true := by
  rw [arrivesAt_cons_cons]
  exact ⟨by simp [SanitizeStruct_nil], n, inner, by simp, h⟩

theorem arrivesAt_ne_nil {config : Config} {fields : List Field} {p : List Nat}
    (h : arrivesAt config fields p = true) : ∃ i tl, p = i :: tl := by
  cases p with
  | nil => simp [arrivesAt] at h
  | cons i tl => exact ⟨i, tl, rfl⟩

/-- An iteration that leaves the function either propagates the outcome of the recursive
call on an untagged exported nested struct, or leaves the field as it was. -/
theorem sanitizeField_some {config : Config} {field : Field} {r : Run (Option Error)}
    (h : (sanitizeField config field).2 = some r) :
    (∃ n inner, field = .mk n "" true (.struct inner) ∧
        (SanitizeStruct config inner).2 = r) ∨
      sanitizeField config field = (field, some r) := by
  obtain ⟨n, t, e, v⟩ := field
  by_cases ht : t = ""
  · subst ht
    cases v with
    | struct inner =>
      rw [sanitizeField_untagged_struct] at h ⊢
      cases e with
      | false => right; simpa using h
      | true =>
        left
        refine ⟨n, inner, rfl, ?_⟩
        by_cases hr : (SanitizeStruct config inner).2 = .ret none
        · simp [hr] at h
        · simpa [hr] using h
    | str s => rw [sanitizeField_untagged_leaf _ _ _ _ (by simp [Value.kind])] at h; simp at h
    | strSlice xs =>
      rw [sanitizeField_untagged_leaf _ _ _ _ (by simp [Value.kind])] at h; simp at h
    | other o =>
      rw [sanitizeField_untagged_leaf _ _ _ _ (by simpa [Value.kind] using o.kind_ne_Struct)] at h
      simp at h
  · right
    cases v with
    | struct inner =>
      rw [sanitizeField_tagged_badKind _ _ _ _ _ ht (by simp [Value.kind])] at h ⊢
      simpa using h
    | other o =>
      rw [sanitizeField_tagged_badKind _ _ _ _ _ ht
        ⟨by simpa [Value.kind] using o.kind_ne_String,
          by simpa [Value.kind, Value.elemKind] using o.not_strSlice⟩] at h ⊢
      simpa using h
    | str s =>
      rw [sanitizeField_tagged_str _ _ _ _ _ ht] at h ⊢
      cases hres : resolve config t <;> cases e <;> simp_all
    | strSlice xs =>
      rw [sanitizeField_tagged_strSlice _ _ _ _ _ ht] at h ⊢
      rw [sanitizeElems_eq] at h ⊢
      cases xs with
      | nil => simp at h
      | cons y ys => cases hres : resolve config t <;> cases e <;> simp_all

/-- A call that does not return nil stops at some field: the traversal arrives at it and
its iteration leaves the function with the outcome of the call, the field unchanged. -/
theorem exists_stop (config : Config) :
    ∀ (fields : List Field) (r : Run (Option Error)),
      (SanitizeStruct config fields).2 = r → r ≠ .ret none →
      ∃ p fd, arrivesAt config fields p = true ∧ fieldAt fields p = some fd ∧
        sanitizeField config fd = (fd, some r)
  | [], r, h, hne => by
    rw [SanitizeStruct_nil] at h
    exact absurd h.symm hne
  | x :: xs, r, h, hne => by
    rw [SanitizeStruct_cons] at h
    rcases hx : (sanitizeField config x).2 with _ | r2
    · rw [hx] at h
      obtain ⟨p, fd, ha, hp, hs⟩ := exists_stop config xs r h hne
      obtain ⟨i, tl, rfl⟩ := arrivesAt_ne_nil ha
      refine ⟨(i + 1) :: tl, fd, arrivesAt_succ hx ha, ?_, hs⟩
      rw [← hp]
      exact fieldAt_cons_succ x xs i tl
    · rw [hx] at h
      have h : r2 = r := h
      subst h
      rcases sanitizeField_some hx with ⟨n, inner, rfl, hin⟩ | hleaf
      · obtain ⟨p, fd, ha, hp, hs⟩ := exists_stop config inner r2 hin hne
        obtain ⟨j, tl, rfl⟩ := arrivesAt_ne_nil ha
        refine ⟨0 :: j :: tl, fd, arrivesAt_zero_struct ha, ?_, hs⟩
        have h0 : (Field.mk n "" true (.struct inner) :: xs)[0]? =
            some (.mk n "" true (.struct inner)) := by simp
        rw [fieldAt_through h0]
        exact hp
      · refine ⟨[0], x, ?_, by simp [fieldAt_single], hleaf⟩
        rw [arrivesAt_single]
        simp [SanitizeStruct_nil]

theorem before_irrefl (p : List Nat) : before p p = false := by
  induction p with
  | nil => simp [before]
  | cons i p ih => simp [before, ih]

/-! ## Nested structs and untagged records (C4) -/

/-- Read by value, where every field owns its contents: after a call that returned nil, an
untagged field holding a nested struct, at any depth, holds exactly the fields that
`SanitizeStruct` produces when called on that nested struct (a call that itself returns
nil), and an untagged field that is not a nested struct keeps its value. -/
theorem nested_struct_byValue (config : Config) (fields : List Field)
    (hnil : (SanitizeStruct config fields).2 = .ret none) (p : List Nat) (n : String)
    (e : Bool) :
    (∀ inner, fieldAt fields p = some (.mk n "" e (.struct inner)) →
      fieldAt (SanitizeStruct config fields).1 p =
          some (.mk n "" e (.struct (SanitizeStruct config inner).1)) ∧
        (SanitizeStruct config inner).2 = .ret none) ∧
    (∀ v, v.kind ≠ .Struct → fieldAt fields p = some (.mk n "" e v) →
      fieldAt (SanitizeStruct config fields).1 p = some (.mk n "" e v)) := by
  constructor
  · intro inner hp
    obtain ⟨ho, hnone⟩ := fieldAt_of_nil _ p fields _ hnil hp
    obtain ⟨_, _, hin, hfd⟩ := sanitizeField_struct_none hnone
    rw [ho, hfd]
    exact ⟨rfl, hin⟩
  · intro v hv hp
    obtain ⟨ho, _⟩ := fieldAt_of_nil _ p fields _ hnil hp
    rw [ho, sanitizeField_untagged_leaf _ _ _ _ hv]

/-- C4, at the failing input: on a record without any tag whose only field is an unexported
nested struct, the call panics (in `field.Addr().Interface()`) instead of returning nil. -/
theorem untagged_unexported_struct_panics (config : Config) :
    SanitizeStruct config [.mk "inner" "" false (.struct [.mk "X" "" true (.other (.int 1))])] =
      ([.mk "inner" "" false (.struct [.mk "X" "" true (.other (.int 1))])], .panic) := by
  simp [SanitizeStruct, sanitizeField]

/-- On a record without any tag at any depth whose nested struct fields are all exported,
the call returns nil and changes nothing, whatever the configuration. -/
theorem untagged_exported_unchanged (config : Config) :
    ∀ fields : List Field, noTagAnywhere fields = true → structsExported fields = true →
      SanitizeStruct config fields = (fields, .ret none)
  | [], _, _ => SanitizeStruct_nil config
  | (.mk n t e v) :: xs, h1, h2 => by
    simp only [noTagAnywhere, structsExported, Bool.and_eq_true] at h1 h2
    have ih := untagged_exported_unchanged config xs h1.2 h2.2
    have key : sanitizeField config (.mk n t e v) = (.mk n t e v, none) := by
      cases v with
      | struct inner =>
        simp only [noTagField, structsExportedField, Bool.and_eq_true,
          decide_eq_true_eq] at h1 h2
        obtain ⟨⟨ht, hin1⟩, _⟩ := h1
        obtain ⟨⟨he, hin2⟩, _⟩ := h2
        subst ht; subst he
        rw [sanitizeField_untagged_struct,
          untagged_exported_unchanged config inner hin1 hin2]
        simp
      | str s =>
        simp only [noTagField, decide_eq_true_eq] at h1
        rw [h1.1]
        exact sanitizeField_untagged_leaf _ _ _ _ (by simp [Value.kind])
      | strSlice ys =>
        simp only [noTagField, decide_eq_true_eq] at h1
        rw [h1.1]
        exact sanitizeField_untagged_leaf _ _ _ _ (by simp [Value.kind])
      | other o =>
        simp only [noTagField, decide_eq_true_eq] at h1
        rw [h1.1]
        exact sanitizeField_untagged_leaf _ _ _ _ (by simpa [Value.kind] using o.kind_ne_Struct)
    rw [SanitizeStruct_cons, key, ih]

/-! ## Structural errors (C6, C7, C8) -/

/-- C6. When the traversal arrives at a tagged field whose kind is neither string nor slice
of string (no field visited earlier makes the call fail), the call returns exactly
`ErrInvalidPropertyType`, whatever the non-empty tag is, and the field is left as it was: a
tagged nested struct is not recursed into. -/
theorem tagged_non_string_field_rejected (config : Config) (fields : List Field)
    (p : List Nat) (n t : String) (e : Bool) (v : Value)
    (ha : arrivesAt config fields p = true)
    (hp : fieldAt fields p = some (.mk n t e v)) (ht : t ≠ "")
    (hk : v.kind ≠ .String ∧ ¬ (v.kind = .Slice ∧ v.elemKind = some .String)) :
    (SanitizeStruct config fields).2 = .ret (some .ErrInvalidPropertyType) ∧
      fieldAt (SanitizeStruct config fields).1 p = some (.mk n t e v) := by
  obtain ⟨h1, h2, _⟩ := traversal_stop config p fields _ _ ha hp
    (sanitizeField_tagged_badKind config n t e v ht hk)
  exact ⟨h1, by rw [h2 p (before_irrefl p), hp]⟩

/-- Witness for C6: a nested struct carrying a recognized tag, itself holding a tagged
string, after a field that is sanitized. -/
theorem tagged_non_string_field_rejected_witness :
    (SanitizeStruct (Config.of (fun s => s ++ "!") (fun s => s ++ "?"))
        [.mk "Name" "stripall" true (.str "a"),
         .mk "Foo" "stripall" true (.struct [.mk "City" "stripall" true (.str "c")])]).2 =
        .ret (some .ErrInvalidPropertyType) ∧
      fieldAt (SanitizeStruct (Config.of (fun s => s ++ "!") (fun s => s ++ "?"))
        [.mk "Name" "stripall" true (.str "a"),
         .mk "Foo" "stripall" true (.struct [.mk "City" "stripall" true (.str "c")])]).1 [1] =
        some (.mk "Foo" "stripall" true (.struct [.mk "City" "stripall" true (.str "c")])) :=
  tagged_non_string_field_rejected (Config.of (fun s => s ++ "!") (fun s => s ++ "?"))
    [.mk "Name" "stripall" true (.str "a"),
     .mk "Foo" "stripall" true (.struct [.mk "City" "stripall" true (.str "c")])]
    [1] "Foo" "stripall" true (.struct [.mk "City" "stripall" true (.str "c")])
    (by decide) (by rfl) (by decide) (by decide)

theorem resolve_invalid (config : Config) (t : String) (h1 : t ≠ "stripall")
    (h2 : t ≠ "safeugc") : resolve config t = .invalid := by
  simp [resolve, StripAll, SafeUGC, h1, h2]

/-- C7. The recognized tag values are exactly "stripall" and "safeugc": `getCleansedValue`
answers `ErrInvalidTagValue` for a tag if and only if the tag is neither of the two, by exact
comparison; and when the traversal arrives at a string field carrying any other non-empty
tag (no field visited earlier makes the call fail), the call returns exactly
`ErrInvalidTagValue`, whatever the value of the field, and leaves the field as it was. -/
theorem unrecognized_tag_on_string_rejected (config : Config) :
    (∀ tag value, (∃ cleaned, getCleansedValue config tag value =
        .ret (cleaned, some .ErrInvalidTagValue)) ↔ (tag ≠ "stripall" ∧ tag ≠ "safeugc")) ∧
    (∀ (fields : List Field) (p : List Nat) (n t : String) (e : Bool) (s : String),
      arrivesAt config fields p = true → fieldAt fields p = some (.mk n t e (.str s)) →
      t ≠ "" → t ≠ "stripall" → t ≠ "safeugc" →
      (SanitizeStruct config fields).2 = .ret (some .ErrInvalidTagValue) ∧
        fieldAt (SanitizeStruct config fields).1 p = some (.mk n t e (.str s))) := by
  constructor
  · intro tag value
    rw [getCleansedValue_eq]
    constructor
    · rintro ⟨cleaned, h⟩
      refine ⟨?_, ?_⟩
      · rintro rfl
        simp only [resolve, StripAll] at h
        cases hc : config.StripAllFunc <;> simp [hc] at h
      · rintro rfl
        have hne : ¬ ("safeugc" = "stripall") := by decide
        simp only [resolve, StripAll, SafeUGC, hne, if_false, if_true] at h
        cases hc : config.UGCFunc <;> simp [hc] at h
    · rintro ⟨h1, h2⟩
      rw [resolve_invalid config tag h1 h2]
      exact ⟨"", rfl⟩
  · intro fields p n t e s ha hp ht h1 h2
    have hsf : sanitizeField config (.mk n t e (.str s)) =
        (.mk n t e (.str s), some (.ret (some .ErrInvalidTagValue))) := by
      rw [sanitizeField_tagged_str _ _ _ _ _ ht, resolve_invalid config t h1 h2]
    obtain ⟨g1, g2, _⟩ := traversal_stop config p fields _ _ ha hp hsf
    exact ⟨g1, by rw [g2 p (before_irrefl p), hp]⟩

/-- Witness for C7: the tag "StripAll" differs from "stripall" by case only, on an
unexported field holding the empty string, inside a nested struct. -/
theorem unrecognized_tag_on_string_rejected_witness :
    (SanitizeStruct (Config.of (fun s => s ++ "!") (fun s => s ++ "?"))
        [.mk "ID" "" true (.other (.int 1)),
         .mk "Inner" "" true (.struct [.mk "name" "StripAll" false (.str "")])]).2 =
        .ret (some .ErrInvalidTagValue) ∧
      fieldAt (SanitizeStruct (Config.of (fun s => s ++ "!") (fun s => s ++ "?"))
        [.mk "ID" "" true (.other (.int 1)),
         .mk "Inner" "" true (.struct [.mk "name" "StripAll" false (.str "")])]).1 [1, 0] =
        some (.mk "name" "StripAll" false (.str "")) :=
  (unrecognized_tag_on_string_rejected (Config.of (fun s => s ++ "!") (fun s => s ++ "?"))).2
    [.mk "ID" "" true (.other (.int 1)),
     .mk "Inner" "" true (.struct [.mk "name" "StripAll" false (.str "")])]
    [1, 0] "name" "StripAll" false "" (by decide) (by rfl) (by decide) (by decide) (by decide)

/-- C8, at the failing input: a `[]string` field with an unrecognized tag and an empty list
is accepted, the call returns nil instead of `ErrInvalidTagValue`, because the tag is looked
at only inside the loop over the elements. -/
theorem unrecognized_tag_on_empty_slice_accepted (config : Config) :
    SanitizeStruct config [.mk "Tags" "invalid" true (.strSlice [])] =
      ([.mk "Tags" "invalid" true (.strSlice [])], .ret none) := by
  simp [SanitizeStruct, sanitizeField, sanitizeElems, Value.kind, Value.elemKind]

/-- The part of C8 that holds: on a non-empty list with an unrecognized tag the iteration
fails with `ErrInvalidTagValue` and no element is changed. -/
theorem unrecognized_tag_on_nonempty_slice (config : Config) (n t : String) (e : Bool)
    (x : String) (xs : List String) (ht : t ≠ "") (h1 : t ≠ "stripall") (h2 : t ≠ "safeugc") :
    sanitizeField config (.mk n t e (.strSlice (x :: xs))) =
      (.mk n t e (.strSlice (x :: xs)), some (.ret (some .ErrInvalidTagValue))) := by
  rw [sanitizeField_tagged_strSlice _ _ _ _ _ ht, sanitizeElems_eq,
    resolve_invalid config t h1 h2]

theorem resolve_fn_iff (config : Config) (t : String) (F : String → String) :
    resolve config t = .fn F ↔
      (t = "stripall" ∧ config.StripAllFunc = some F) ∨
        (t = "safeugc" ∧ config.UGCFunc = some F) := by
  have hne : ¬ ("safeugc" = "stripall") := by decide
  unfold resolve StripAll SafeUGC
  by_cases h1 : t = "stripall"
  · subst h1
    cases hc : config.StripAllFunc <;> simp
  · by_cases h2 : t = "safeugc"
    · subst h2
      cases hc : config.UGCFunc <;> simp [hne]
    · simp [h1, h2]

/-- A tagged string field whose iteration does not leave the function holds the image of
its value under the function its tag selects. -/
theorem sanitizeField_str_none {config : Config} {n t : String} {e : Bool} {s : String}
    (ht : t ≠ "") (h : (sanitizeField config (.mk n t e (.str s))).2 = none) :
    ∃ F, resolve config t = .fn F ∧
      (sanitizeField config (.mk n t e (.str s))).1 = .mk n t e (.str (F s)) := by
  rw [sanitizeField_tagged_str _ _ _ _ _ ht] at h ⊢
  cases hres : resolve config t with
  | invalid => simp [hres] at h
  | unset => simp [hres] at h
  | fn F =>
    cases e with
    | false => simp [hres] at h
    | true => exact ⟨F, rfl, by simp⟩

/-- A tagged `[]string` field whose iteration does not leave the function is empty, or holds
the images of its elements under the function its tag selects. -/
theorem sanitizeField_strSlice_none {config : Config} {n t : String} {e : Bool}
    {xs : List String} (ht : t ≠ "")
    (h : (sanitizeField config (.mk n t e (.strSlice xs))).2 = none) :
    (xs = [] ∧ (sanitizeField config (.mk n t e (.strSlice xs))).1 = .mk n t e (.strSlice [])) ∨
    ∃ F, resolve config t = .fn F ∧
      (sanitizeField config (.mk n t e (.strSlice xs))).1 = .mk n t e (.strSlice (xs.map F)) := by
  rw [sanitizeField_tagged_strSlice _ _ _ _ _ ht] at h ⊢
  rw [sanitizeElems_eq] at h ⊢
  cases xs with
  | nil => left; simp
  | cons y ys =>
    right
    cases hres : resolve config t with
    | invalid => simp [hres] at h
    | unset => simp [hres] at h
    | fn F =>
      cases e with
      | false => simp [hres] at h
      | true => exact ⟨F, rfl, by simp⟩

/-! ## State after a failed call, by value -/

/-- Read by value, where every field owns its contents: when the call returns an error,
there is a field at which the traversal failed: the traversal arrives at it and its
iteration returns the error, leaving the field unchanged. That field and every field not
visited before it hold their original values. Among the fields visited before it, a tagged
string holds the image of its value under the function its tag selects, a tagged
`[]string` holds the images of its elements (or is empty), and every other field that is
not a nested struct holds its original value. -/
theorem error_leaves_bounded_mutation_byValue (config : Config) (fields : List Field) (err : Error)
    (herr : (SanitizeStruct config fields).2 = .ret (some err)) :
    ∃ p fd, arrivesAt config fields p = true ∧ fieldAt fields p = some fd ∧
      sanitizeField config fd = (fd, some (.ret (some err))) ∧
      (∀ q, before q p = false →
        fieldAt (SanitizeStruct config fields).1 q = fieldAt fields q) ∧
      (∀ q n t e s, before q p = true → fieldAt fields q = some (.mk n t e (.str s)) →
        t ≠ "" →
        ∃ F, ((t = "stripall" ∧ config.StripAllFunc = some F) ∨
            (t = "safeugc" ∧ config.UGCFunc = some F)) ∧
          fieldAt (SanitizeStruct config fields).1 q = some (.mk n t e (.str (F s)))) ∧
      (∀ q n t e xs, before q p = true →
        fieldAt fields q = some (.mk n t e (.strSlice xs)) → t ≠ "" →
        (xs = [] ∧
          fieldAt (SanitizeStruct config fields).1 q = some (.mk n t e (.strSlice []))) ∨
        ∃ F, ((t = "stripall" ∧ config.StripAllFunc = some F) ∨
            (t = "safeugc" ∧ config.UGCFunc = some F)) ∧
          fieldAt (SanitizeStruct config fields).1 q =
            some (.mk n t e (.strSlice (xs.map F)))) ∧
      (∀ q n t e v, fieldAt fields q = some (.mk n t e v) → v.kind ≠ .Struct →
        (t = "" ∨ (v.kind ≠ .String ∧ ¬ (v.kind = .Slice ∧ v.elemKind = some .String))) →
        fieldAt (SanitizeStruct config fields).1 q = some (.mk n t e v)) := by
  obtain ⟨p, fd, ha, hp, hfd⟩ := exists_stop config fields _ herr (by simp)
  obtain ⟨_, h2, h3⟩ := traversal_stop config p fields fd _ ha hp hfd
  refine ⟨p, fd, ha, hp, hfd, h2, ?_, ?_, ?_⟩
  · intro q n t e s hb hq ht
    obtain ⟨ho, hnone⟩ := h3 q _ hb hq (by simp [Field.value, Value.kind])
    obtain ⟨F, hF, hfst⟩ := sanitizeField_str_none ht hnone
    exact ⟨F, (resolve_fn_iff _ _ _).1 hF, by rw [ho, hfst]⟩
  · intro q n t e xs hb hq ht
    obtain ⟨ho, hnone⟩ := h3 q _ hb hq (by simp [Field.value, Value.kind])
    rcases sanitizeField_strSlice_none ht hnone with ⟨hx, hfst⟩ | ⟨F, hF, hfst⟩
    · exact Or.inl ⟨hx, by rw [ho, hfst]⟩
    · exact Or.inr ⟨F, (resolve_fn_iff _ _ _).1 hF, by rw [ho, hfst]⟩
  · intro q n t e v hq hv hcase
    cases hb : before q p with
    | false => rw [h2 q hb, hq]
    | true =>
      obtain ⟨ho, hnone⟩ := h3 q _ hb hq (by simpa [Field.value] using hv)
      rw [ho]
      by_cases ht : t = ""
      · subst ht
        rw [sanitizeField_untagged_leaf _ _ _ _ hv]
      · rcases hcase with h | h
        · exact absurd h ht
        · rw [sanitizeField_tagged_badKind _ _ _ _ _ ht h] at hnone
          simp at hnone

/-! ## Composition of two calls -/

theorem resolve_of (f g : String → String) (t : String) :
    resolve (Config.of f g) t =
      if t = "stripall" then .fn f else if t = "safeugc" then .fn g else .invalid := by
  simp [resolve, Config.of, StripAll, SafeUGC]

theorem resolve_unset {config : Config} {t : String}
    (h : (t = "stripall" ∧ config.StripAllFunc = none) ∨
      (t = "safeugc" ∧ config.UGCFunc = none)) : resolve config t = .unset := by
  have hne : ¬ ("safeugc" = "stripall") := by decide
  rcases h with ⟨rfl, hc⟩ | ⟨rfl, hc⟩
  · simp [resolve, StripAll, hc]
  · simp [resolve, StripAll, SafeUGC, hne, hc]

/-- C12, counterexample: with an unset `StripAllFunc`, the call on a record whose only field
is a string tagged "stripall" panics; it does not return an error. -/
theorem unset_slot_returns_no_error :
    (SanitizeStruct ⟨none, none⟩ [.mk "Name" "stripall" true (.str "a")]).2 = .panic ∧
      ¬ ∃ err, (SanitizeStruct ⟨none, none⟩ [.mk "Name" "stripall" true (.str "a")]).2 =
        .ret (some err) :=
  ⟨by decide, fun ⟨err, h⟩ => by revert h; cases err <;> decide⟩

/-- Read by value: on a record with a tagged string field, or a tagged non-empty `[]string`
field, that names a recognized policy whose slot in the configuration is unset, the call
never returns nil, and when the traversal arrives at that field the call panics. -/
theorem unset_slot_outcome_byValue (config : Config) (fields : List Field) (p : List Nat)
    (n t : String) (e : Bool) (v : Value)
    (hslot : (t = "stripall" ∧ config.StripAllFunc = none) ∨
      (t = "safeugc" ∧ config.UGCFunc = none))
    (hv : (∃ s, v = .str s) ∨ (∃ x xs, v = .strSlice (x :: xs)))
    (hp : fieldAt fields p = some (.mk n t e v)) :
    (SanitizeStruct config fields).2 ≠ .ret none ∧
      (arrivesAt config fields p = true → (SanitizeStruct config fields).2 = .panic) := by
  have ht : t ≠ "" := by
    rcases hslot with ⟨rfl, _⟩ | ⟨rfl, _⟩ <;> decide
  have hres := resolve_unset hslot
  have hsf : sanitizeField config (.mk n t e v) = (.mk n t e v, some .panic) := by
    rcases hv with ⟨s, rfl⟩ | ⟨x, xs, rfl⟩
    · rw [sanitizeField_tagged_str _ _ _ _ _ ht, hres]
    · rw [sanitizeField_tagged_strSlice _ _ _ _ _ ht, sanitizeElems_eq, hres]
  constructor
  · intro hnil
    obtain ⟨_, hnone⟩ := fieldAt_of_nil config p fields _ hnil hp
    rw [hsf] at hnone
    simp at hnone
  · intro ha
    exact (traversal_stop config p fields _ _ ha hp hsf).1

/-- C13. `Setup` replaces the whole registry: after `Setup(c)`, whatever the initial content
of `config` and whatever calls of `Setup` came before, the package variable is `c`, every
call of `SanitizeStruct` is the call under `c`, and `getCleansedValue` runs `c.StripAllFunc`
for "stripall" and `c.UGCFunc` for "safeugc", panicking on a slot that `c` leaves unset
whatever an earlier configuration held there. -/
theorem setup_replaces_registry (initial : Config) (earlier : List Config) (c : Config) :
    Setup (earlier.foldl Setup initial) c = c ∧
    (∀ fields, SanitizeStruct (Setup (earlier.foldl Setup initial) c) fields =
      SanitizeStruct c fields) ∧
    (∀ value, getCleansedValue (Setup (earlier.foldl Setup initial) c) "stripall" value =
      match c.StripAllFunc with
      | some f => .ret (f value, none)
      | none => .panic) ∧
    (∀ value, getCleansedValue (Setup (earlier.foldl Setup initial) c) "safeugc" value =
      match c.UGCFunc with
      | some g => .ret (g value, none)
      | none => .panic) := by
  have hne : ¬ ("safeugc" = "stripall") := by decide
  refine ⟨rfl, fun _ => rfl, ?_, ?_⟩
  · intro value
    simp only [Setup, getCleansedValue, StripAll, Config.StripAll, if_true]
    cases c.StripAllFunc <;> rfl
  · intro value
    simp only [Setup, getCleansedValue, StripAll, SafeUGC, Config.SafeUGC, hne, if_true, if_false]
    cases c.UGCFunc <;> rfl

/-! ## Lock discipline (C14) -/

/-- C14, at the failing input: `Setup` writes `config` while holding `mutex`, but
`getCleansedValue` reads `config` for "stripall" and for "safeugc" without holding it, and
never takes it for any tag. -/
theorem registry_read_without_mutex :
    guarded false Setup.ops = true ∧
    guarded false (getCleansedValue.ops "stripall") = false ∧
    guarded false (getCleansedValue.ops "safeugc") = false ∧
    ∀ tag, Op.Lock ∉ getCleansedValue.ops tag := by
  refine ⟨by decide, by decide, by decide, ?_⟩
  intro tag
  unfold getCleansedValue.ops
  split_ifs <;> simp

/-! ## The invocations made during a call, by value -/

theorem getCleansedValueT_fst (config : Config) (tag value : String) :
    (getCleansedValueT config tag value).1 = getCleansedValue config tag value := by
  unfold getCleansedValueT getCleansedValue Config.StripAll Config.SafeUGC
  by_cases h1 : tag = StripAll
  · cases h : config.StripAllFunc <;> simp [h1, h]
  · by_cases h2 : tag = SafeUGC
    · have hne : ¬ SafeUGC = StripAll := by decide
      cases h : config.UGCFunc <;> simp [h2, h, hne]
    · simp [h1, h2]

theorem getCleansedValueT_snd (config : Config) (tag value : String) :
    (getCleansedValueT config tag value).2 =
      match resolve config tag with
      | .fn _ => [⟨tag, value⟩]
      | _ => [] := by
  unfold getCleansedValueT resolve
  by_cases h1 : tag = StripAll
  · cases h : config.StripAllFunc <;> simp [h1, h]
  · by_cases h2 : tag = SafeUGC
    · have hne : ¬ SafeUGC = StripAll := by decide
      cases h : config.UGCFunc <;> simp [h2, h, hne]
    · simp [h1, h2]

theorem getCleansedValueT_eq (config : Config) (tag value : String) :
    getCleansedValueT config tag value =
      (getCleansedValue config tag value,
        match resolve config tag with
        | .fn _ => [⟨tag, value⟩]
        | _ => []) := by
  rw [← getCleansedValueT_fst, ← getCleansedValueT_snd]

theorem sanitizeElemsT_eq (config : Config) (tag : String) (exported : Bool)
    (xs : List String) :
    sanitizeElemsT config tag exported xs =
      (sanitizeElems config tag exported xs,
        match xs with
        | [] => []
        | x :: _ =>
          match resolve config tag with
          | .fn _ => if exported then xs.map (fun y => ⟨tag, y⟩) else [⟨tag, x⟩]
          | _ => []) := by
  induction xs with
  | nil => simp [sanitizeElemsT, sanitizeElems]
  | cons x xs ih =>
    simp only [sanitizeElemsT, sanitizeElems, getCleansedValueT_eq, getCleansedValue_eq]
    cases h : resolve config tag with
    | invalid => simp
    | unset => simp
    | fn F =>
      cases exported with
      | false => simp
      | true =>
        simp only [if_true, ih, h]
        cases xs <;> simp

theorem SanitizeStructT_nil (config : Config) :
    SanitizeStructT config [] = (([], .ret none), []) := by
  simp [SanitizeStructT]

theorem SanitizeStructT_cons (config : Config) (field : Field) (rest : List Field) :
    SanitizeStructT config (field :: rest) =
      match (sanitizeFieldT config field).1.2 with
      | some r => (((sanitizeFieldT config field).1.1 :: rest, r), (sanitizeFieldT config field).2)
      | none =>
        (((sanitizeFieldT config field).1.1 :: (SanitizeStructT config rest).1.1,
            (SanitizeStructT config rest).1.2),
          (sanitizeFieldT config field).2 ++ (SanitizeStructT config rest).2) := by
  rw [SanitizeStructT]
  rcases h : sanitizeFieldT config field with ⟨⟨f1, _ | r⟩, calls⟩ <;> simp

theorem sanitizeFieldT_untagged_struct (config : Config) (n : String) (e : Bool)
    (inner : List Field) :
    sanitizeFieldT config (.mk n "" e (.struct inner)) =
      if e then
        ((.mk n "" e (.struct (SanitizeStructT config inner).1.1),
            if (SanitizeStructT config inner).1.2 = .ret none then none
            else some (SanitizeStructT config inner).1.2),
          (SanitizeStructT config inner).2)
      else ((.mk n "" e (.struct inner), some .panic), []) := by
  rw [sanitizeFieldT]
  cases e with
  | false => simp
  | true =>
    simp only [if_true]
    rcases h : (SanitizeStructT config inner).1.2 with (_ | err) | _ <;> simp [h]

/-- The invocations made by one iteration on a field that is not a nested struct. -/
theorem sanitizeFieldT_leaf (config : Config) (n t : String) (e : Bool) (v : Value)
    (hv : v.kind ≠ .Struct) :
    sanitizeFieldT config (.mk n t e v) =
      (sanitizeField config (.mk n t e v),
        if t = "" then []
        else
          match v with
          | .str s =>
            match resolve config t with
            | .fn _ => [⟨t, s⟩]
            | _ => []
          | .strSlice (x :: xs) =>
            match resolve config t with
            | .fn _ => if e then (x :: xs).map (fun y => ⟨t, y⟩) else [⟨t, x⟩]
            | _ => []
          | _ => []) := by
  by_cases ht : t = ""
  · subst ht
    cases v <;> simp_all [Value.kind, sanitizeFieldT, sanitizeField]
  · cases v with
    | struct inner => simp [Value.kind] at hv
    | other o =>
      have h1 := o.kind_ne_String
      have h2 := o.kind_ne_Struct
      have h3 := o.not_strSlice
      simp_all [Value.kind, Value.elemKind, sanitizeFieldT, sanitizeField]
    | str s =>
      simp only [sanitizeFieldT, sanitizeField, ht, if_false, Value.kind,
        getCleansedValueT_eq, getCleansedValue_eq]
      cases resolve config t <;> cases e <;> simp
    | strSlice ys =>
      simp only [sanitizeFieldT, sanitizeField, ht, if_false, Value.kind, Value.elemKind,
        sanitizeElemsT_eq]
      cases ys <;> simp

/-- Erasing the invocations from the traced call gives the call. -/
theorem SanitizeStructT_fst (config : Config) :
    ∀ fields : List Field, (SanitizeStructT config fields).1 = SanitizeStruct config fields
  | [] => by simp [SanitizeStructT_nil, SanitizeStruct_nil]
  | (.mk n t e v) :: xs => by
    have ih := SanitizeStructT_fst config xs
    have key : (sanitizeFieldT config (.mk n t e v)).1 = sanitizeField config (.mk n t e v) := by
      cases v with
      | struct inner =>
        by_cases ht : t = ""
        · subst ht
          rw [sanitizeFieldT_untagged_struct, sanitizeField_untagged_struct,
            SanitizeStructT_fst config inner]
          cases e <;> simp
        · simp [sanitizeFieldT, sanitizeField, ht, Value.kind]
      | str s => rw [sanitizeFieldT_leaf _ _ _ _ _ (by simp [Value.kind])]
      | strSlice ys => rw [sanitizeFieldT_leaf _ _ _ _ _ (by simp [Value.kind])]
      | other o =>
        rw [sanitizeFieldT_leaf _ _ _ _ _ (by simpa [Value.kind] using o.kind_ne_Struct)]
    rw [SanitizeStructT_cons, SanitizeStruct_cons, key, ih]
    rcases h : (sanitizeField config (.mk n t e v)).2 with _ | r <;> simp

theorem sanitizeFieldT_fst (config : Config) (field : Field) :
    (sanitizeFieldT config field).1 = sanitizeField config field := by
  obtain ⟨n, t, e, v⟩ := field
  cases v with
  | struct inner =>
    by_cases ht : t = ""
    · subst ht
      rw [sanitizeFieldT_untagged_struct, sanitizeField_untagged_struct,
        SanitizeStructT_fst config inner]
      cases e <;> simp
    · simp [sanitizeFieldT, sanitizeField, ht, Value.kind]
  | str s => rw [sanitizeFieldT_leaf _ _ _ _ _ (by simp [Value.kind])]
  | strSlice ys => rw [sanitizeFieldT_leaf _ _ _ _ _ (by simp [Value.kind])]
  | other o =>
    rw [sanitizeFieldT_leaf _ _ _ _ _ (by simpa [Value.kind] using o.kind_ne_Struct)]

/-- The outcome of one loop iteration on a field is the same on the field as the iteration
left it. -/
theorem sanitizeField_again_leaf (config : Config) (n t : String) (e : Bool) (v : Value)
    (hv : v.kind ≠ .Struct) :
    (sanitizeField config (sanitizeField config (.mk n t e v)).1).2 =
      (sanitizeField config (.mk n t e v)).2 := by
  by_cases ht : t = ""
  · subst ht
    simp [sanitizeField_untagged_leaf _ _ _ _ hv]
  · cases v with
    | struct inner => simp [Value.kind] at hv
    | other o =>
      have hb := sanitizeField_tagged_badKind config n t e (.other o) ht
        ⟨by simpa [Value.kind] using o.kind_ne_String,
          by simpa [Value.kind, Value.elemKind] using o.not_strSlice⟩
      simp only [hb]
    | str s =>
      simp only [sanitizeField_tagged_str _ _ _ _ _ ht]
      cases hres : resolve config t <;> cases e <;>
        simp [sanitizeField_tagged_str _ _ _ _ _ ht, hres]
    | strSlice ys =>
      simp only [sanitizeField_tagged_strSlice _ _ _ _ _ ht, sanitizeElems_eq]
      cases ys with
      | nil => simp
      | cons y ys =>
        cases hres : resolve config t <;> cases e <;> simp [hres]

/-- A call on the state left by a call ends the way that call ended. -/
theorem SanitizeStruct_again (config : Config) :
    ∀ fields : List Field,
      (SanitizeStruct config (SanitizeStruct config fields).1).2 =
        (SanitizeStruct config fields).2
  | [] => by simp [SanitizeStruct_nil]
  | (.mk n t e v) :: xs => by
    have ih := SanitizeStruct_again config xs
    have key : (sanitizeField config (sanitizeField config (.mk n t e v)).1).2 =
        (sanitizeField config (.mk n t e v)).2 := by
      cases v with
      | struct inner =>
        by_cases ht : t = ""
        · subst ht
          have hin := SanitizeStruct_again config inner
          rw [sanitizeField_untagged_struct]
          cases e with
          | false => simp [sanitizeField_untagged_struct]
          | true => simp [sanitizeField_untagged_struct, hin]
        · have hb := sanitizeField_tagged_badKind config n t e (.struct inner) ht
            (by simp [Value.kind])
          simp only [hb]
      | str s => exact sanitizeField_again_leaf _ _ _ _ _ (by simp [Value.kind])
      | strSlice ys => exact sanitizeField_again_leaf _ _ _ _ _ (by simp [Value.kind])
      | other o =>
        exact sanitizeField_again_leaf _ _ _ _ _ (by simpa [Value.kind] using o.kind_ne_Struct)
    rw [SanitizeStruct_cons config (.mk n t e v)]
    rcases h : (sanitizeField config (.mk n t e v)).2 with _ | r
    · simp only
      rw [SanitizeStruct_cons, key, h]
      exact ih
    · simp only
      rw [SanitizeStruct_cons, key, h]

/-- C16. Errors are deterministic under re-invocation: when the call returns an error
`err`, a call on the record as it was left, under the same configuration, returns `err`
again, after any number `k` of repetitions. -/
theorem error_repeats_on_reinvocation (config : Config) (fields : List Field) (err : Error)
    (herr : (SanitizeStruct config fields).2 = .ret (some err)) (k : Nat) :
    (SanitizeStruct config (stateAfter config k fields)).2 = .ret (some err) := by
  induction k generalizing fields with
  | zero => simpa [stateAfter] using herr
  | succ k ih =>
    rw [stateAfter]
    apply ih
    rw [SanitizeStruct_again, herr]

/-- Witness for C16: three repetitions on a record whose first field is sanitized each time
and whose second field is rejected. -/
theorem error_repeats_on_reinvocation_witness :
    (SanitizeStruct (Config.of (fun s => s ++ "!") (fun s => s ++ "?"))
        (stateAfter (Config.of (fun s => s ++ "!") (fun s => s ++ "?")) 3
          [.mk "Name" "stripall" true (.str "a"),
           .mk "ID" "stripall" true (.other (.int 1))])).2 =
      .ret (some .ErrInvalidPropertyType) :=
  error_repeats_on_reinvocation (Config.of (fun s => s ++ "!") (fun s => s ++ "?"))
    [.mk "Name" "stripall" true (.str "a"),
     .mk "ID" "stripall" true (.other (.int 1))] .ErrInvalidPropertyType (by decide) 3

/-! ## The exact failure condition (C17) -/

/-- With both functions configured, one iteration on a field that is not a nested struct
panics or ends as the failure condition says. -/
theorem sanitizeField_leaf_outcome (f g : String → String) (n t : String) (e : Bool)
    (v : Value) (hv : v.kind ≠ .Struct) :
    (e = false ∧ (sanitizeField (Config.of f g) (.mk n t e v)).2 = some .panic) ∨
      (sanitizeField (Config.of f g) (.mk n t e v)).2 =
        (fieldOffence (.mk n t e v)).map (fun err => .ret (some err)) := by
  by_cases ht : t = ""
  · subst ht
    right
    rw [sanitizeField_untagged_leaf _ _ _ _ hv]
    cases v <;> simp_all [fieldOffence, Value.kind]
  · cases v with
    | struct inner => simp [Value.kind] at hv
    | other o =>
      right
      rw [sanitizeField_tagged_badKind _ _ _ _ _ ht
        ⟨by simpa [Value.kind] using o.kind_ne_String,
          by simpa [Value.kind, Value.elemKind] using o.not_strSlice⟩]
      simp [fieldOffence, ht]
    | str s =>
      rw [sanitizeField_tagged_str _ _ _ _ _ ht, resolve_of]
      by_cases h1 : t = "stripall"
      · cases e <;> simp [fieldOffence, ht, h1]
      · by_cases h2 : t = "safeugc"
        · cases e <;> simp [fieldOffence, ht, h1, h2]
        · right; simp [fieldOffence, ht, h1, h2]
    | strSlice ys =>
      rw [sanitizeField_tagged_strSlice _ _ _ _ _ ht, sanitizeElems_eq, resolve_of]
      cases ys with
      | nil => right; simp [fieldOffence, ht]
      | cons y ys =>
        by_cases h1 : t = "stripall"
        · cases e <;> simp [fieldOffence, ht, h1]
        · by_cases h2 : t = "safeugc"
          · cases e <;> simp [fieldOffence, ht, h1, h2]
          · right; simp [fieldOffence, ht, h1, h2]

/-- With both functions configured, a call panics or returns the error of the first
offending field, nil when there is none. -/
theorem outcome_panic_or_firstOffence (f g : String → String) :
    ∀ fields : List Field,
      (SanitizeStruct (Config.of f g) fields).2 = .panic ∨
        (SanitizeStruct (Config.of f g) fields).2 = .ret (firstOffence fields)
  | [] => by simp [SanitizeStruct_nil, firstOffence]
  | (.mk n t e v) :: xs => by
    have ih := outcome_panic_or_firstOffence f g xs
    have key : (sanitizeField (Config.of f g) (.mk n t e v)).2 = some .panic ∨
        (sanitizeField (Config.of f g) (.mk n t e v)).2 =
          (fieldOffence (.mk n t e v)).map (fun err => .ret (some err)) := by
      cases v with
      | struct inner =>
        by_cases ht : t = ""
        · subst ht
          rw [sanitizeField_untagged_struct]
          cases e with
          | false => left; simp
          | true =>
            rcases outcome_panic_or_firstOffence f g inner with h | h
            · left; simp [h]
            · right
              cases hfo : firstOffence inner <;> simp [h, hfo, fieldOffence]
        · right
          rw [sanitizeField_tagged_badKind _ _ _ _ _ ht (by simp [Value.kind])]
          simp [fieldOffence, ht]
      | str s =>
        rcases sanitizeField_leaf_outcome f g n t e (.str s) (by simp [Value.kind]) with h | h
        · exact Or.inl h.2
        · exact Or.inr h
      | strSlice ys =>
        rcases sanitizeField_leaf_outcome f g n t e (.strSlice ys) (by simp [Value.kind])
          with h | h
        · exact Or.inl h.2
        · exact Or.inr h
      | other o =>
        rcases sanitizeField_leaf_outcome f g n t e (.other o)
          (by simpa [Value.kind] using o.kind_ne_Struct) with h | h
        · exact Or.inl h.2
        · exact Or.inr h
    rw [SanitizeStruct_cons, firstOffence]
    rcases key with h | h
    · left; simp [h]
    · cases hfo : fieldOffence (.mk n t e v) with
      | none =>
        rw [hfo] at h
        simp only [Option.map_none'] at h
        simpa [h] using ih
      | some err =>
        rw [hfo] at h
        right
        simp [h]

/-- With both functions configured, a call on a record all of whose fields are exported,
at every depth, does not panic. -/
theorem exported_never_panics (f g : String → String) :
    ∀ fields : List Field, allExported fields = true →
      (SanitizeStruct (Config.of f g) fields).2 ≠ .panic
  | [], _ => by simp [SanitizeStruct_nil]
  | (.mk n t e v) :: xs, h => by
    simp only [allExported, Bool.and_eq_true] at h
    have ih := exported_never_panics f g xs h.2
    have key : (sanitizeField (Config.of f g) (.mk n t e v)).2 ≠ some .panic := by
      have leaf : ∀ w : Value, w.kind ≠ .Struct → e = true →
          (sanitizeField (Config.of f g) (.mk n t e w)).2 ≠ some .panic := by
        intro w hw he
        rcases sanitizeField_leaf_outcome f g n t e w hw with hl | hl
        · rw [he] at hl; simp at hl
        · rw [hl]
          cases fieldOffence (.mk n t e w) <;> simp
      cases v with
      | struct inner =>
        have h1 := h.1
        simp only [fieldAllExported, Bool.and_eq_true] at h1
        by_cases ht : t = ""
        · subst ht
          have hin := exported_never_panics f g inner h1.2
          rw [sanitizeField_untagged_struct, h1.1]
          simp only [if_true]
          split_ifs <;> simp [hin]
        · rw [sanitizeField_tagged_badKind _ _ _ _ _ ht (by simp [Value.kind])]
          simp
      | str s => exact leaf _ (by simp [Value.kind]) (by simpa [fieldAllExported] using h.1)
      | strSlice ys =>
        exact leaf _ (by simp [Value.kind]) (by simpa [fieldAllExported] using h.1)
      | other o =>
        exact leaf _ (by simpa [Value.kind] using o.kind_ne_Struct)
          (by simpa [fieldAllExported] using h.1)
    rw [SanitizeStruct_cons]
    rcases hx : (sanitizeField (Config.of f g) (.mk n t e v)).2 with _ | r
    · exact ih
    · rw [hx] at key
      simpa using key

/-- With both functions configured, on a record all of whose fields are exported the call
returns the error of the first offending field, and nil exactly when there is none. -/
theorem exported_outcome_is_firstOffence (f g : String → String) (fields : List Field)
    (h : allExported fields = true) :
    (SanitizeStruct (Config.of f g) fields).2 = .ret (firstOffence fields) := by
  rcases outcome_panic_or_firstOffence f g fields with hp | hr
  · exact absurd hp (exported_never_panics f g fields h)
  · exact hr

/-- C17, at the failing input: with both functions configured, the record whose only field
is an unexported string tagged "stripall" has no offending field, yet the call does not
return nil: it panics (in `SetString`). -/
theorem no_offending_field_yet_not_nil (f g : String → String) :
    firstOffence [.mk "name" "stripall" false (.str "a")] = none ∧
      (SanitizeStruct (Config.of f g) [.mk "name" "stripall" false (.str "a")]).2 = .panic := by
  constructor
  · simp [firstOffence, fieldOffence]
  · simp [SanitizeStruct, sanitizeField, Value.kind, getCleansedValue, StripAll,
      Config.StripAll, Config.of]

/-! ## Identity functions, by value -/

/-- Identity functions leave every field as it was. -/
theorem SanitizeStruct_id :
    ∀ fields : List Field, (SanitizeStruct (Config.of id id) fields).1 = fields
  | [] => by simp [SanitizeStruct_nil]
  | (.mk n t e v) :: xs => by
    have ih := SanitizeStruct_id xs
    have key : (sanitizeField (Config.of id id) (.mk n t e v)).1 = .mk n t e v := by
      by_cases ht : t = ""
      · subst ht
        cases v with
        | struct inner =>
          rw [sanitizeField_untagged_struct]
          cases e <;> simp [SanitizeStruct_id inner]
        | str s => rw [sanitizeField_untagged_leaf _ _ _ _ (by simp [Value.kind])]
        | strSlice ys => rw [sanitizeField_untagged_leaf _ _ _ _ (by simp [Value.kind])]
        | other o =>
          rw [sanitizeField_untagged_leaf _ _ _ _ (by simpa [Value.kind] using o.kind_ne_Struct)]
      · cases v with
        | struct inner =>
          rw [sanitizeField_tagged_badKind _ _ _ _ _ ht (by simp [Value.kind])]
        | other o =>
          rw [sanitizeField_tagged_badKind _ _ _ _ _ ht
            ⟨by simpa [Value.kind] using o.kind_ne_String,
              by simpa [Value.kind, Value.elemKind] using o.not_strSlice⟩]
        | str s =>
          rw [sanitizeField_tagged_str _ _ _ _ _ ht]
          cases hres : resolve (Config.of id id) t with
          | invalid => rfl
          | unset => rfl
          | fn F =>
            have hF : F = id := by
              rw [resolve_of] at hres
              split_ifs at hres <;> simp_all
            subst hF
            cases e <;> simp
        | strSlice ys =>
          rw [sanitizeField_tagged_strSlice _ _ _ _ _ ht, sanitizeElems_eq]
          cases ys with
          | nil => rfl
          | cons y ys =>
            cases hres : resolve (Config.of id id) t with
            | invalid => rfl
            | unset => rfl
            | fn F =>
              have hF : F = id := by
                rw [resolve_of] at hres
                split_ifs at hres <;> simp_all
              subst hF
              cases e <;> simp
    rw [SanitizeStruct_cons]
    rcases hx : (sanitizeField (Config.of id id) (.mk n t e v)).2 with _ | r
    · simp [key, ih]
    · simp [key]

/-! ## Panics on unexported fields (C19) -/

/-- C19, at the failing inputs: with both functions configured the call panics on an
untagged unexported field holding a nested struct (in `field.Addr().Interface()`), on an
unexported string tagged with a recognized policy and on an unexported non-empty `[]string`
tagged with a recognized policy (in `SetString`). -/
theorem unexported_fields_panic (f g : String → String) :
    (SanitizeStruct (Config.of f g)
      [.mk "inner" "" false (.struct [.mk "City" "stripall" true (.str "c")])]).2 = .panic ∧
    (SanitizeStruct (Config.of f g) [.mk "name" "stripall" false (.str "a")]).2 = .panic ∧
    (SanitizeStruct (Config.of f g) [.mk "tags" "safeugc" false (.strSlice ["a"])]).2 =
      .panic := by
  have hne : ¬ ("safeugc" = "stripall") := by decide
  refine ⟨?_, ?_, ?_⟩
  · simp [SanitizeStruct, sanitizeField]
  · simp [SanitizeStruct, sanitizeField, Value.kind, getCleansedValue, StripAll,
      Config.StripAll, Config.of]
  · simp [SanitizeStruct, sanitizeField, sanitizeElems, Value.kind, Value.elemKind,
      getCleansedValue, StripAll, SafeUGC, Config.SafeUGC, Config.of, hne]

/-! ## The call on memory and the call by value -/

theorem window_succ (base len : Nat) : window base (len + 1) = base :: window (base + 1) len := by
  simp [window, List.range'_succ]

theorem mem_window {a base len : Nat} : a ∈ window base len ↔ base ≤ a ∧ a < base + len := by
  simp [window, List.mem_range'_1]

theorem contents_succ (mem : Mem) (base len : Nat) :
    contents mem base (len + 1) = mem base :: contents mem (base + 1) len := by
  simp [contents, window_succ]

theorem contents_congr {m1 m2 : Mem} {base len : Nat}
    (h : ∀ a ∈ window base len, m1 a = m2 a) : contents m1 base len = contents m2 base len := by
  unfold contents
  exact List.map_congr_left h

/-- The element loop writes only inside the window of the slice. -/
theorem sanitizeElemsM_frame (config : Config) (t : String) (e : Bool) :
    ∀ (len base : Nat) (mem : Mem) (a : Nat), a ∉ window base len →
      (sanitizeElemsM config t e len base mem).mem a = mem a := by
  intro len
  induction len with
  | zero => intro base mem a _; rfl
  | succ len ih =>
    intro base mem a ha
    rw [sanitizeElemsM]
    rcases h : getCleansedValueT config t (mem base) with ⟨⟨v, _ | err⟩ | _, calls⟩
    · cases e with
      | false => rfl
      | true =>
        simp only [if_true]
        have ha2 : a ∉ window (base + 1) len := by
          intro hc; apply ha; rw [mem_window] at hc ⊢; omega
        have hne : a ≠ base := by
          intro hc; apply ha; rw [mem_window]; omega
        rw [ih (base + 1) _ a ha2, Function.update_noteq hne]
    · rfl
    · rfl

/-- The element loop on memory does to the window what the loop by value does to the list
of its strings, ends the same way and makes the same invocations. -/
theorem sanitizeElemsM_eq (config : Config) (t : String) (e : Bool) :
    ∀ (len base : Nat) (mem : Mem),
      contents (sanitizeElemsM config t e len base mem).mem base len =
          (sanitizeElemsT config t e (contents mem base len)).1.1 ∧
        (sanitizeElemsM config t e len base mem).stop =
          (sanitizeElemsT config t e (contents mem base len)).1.2 ∧
        (sanitizeElemsM config t e len base mem).calls =
          (sanitizeElemsT config t e (contents mem base len)).2 := by
  intro len
  induction len with
  | zero => intro base mem; simp [sanitizeElemsM, sanitizeElemsT, contents, window]
  | succ len ih =>
    intro base mem
    rw [sanitizeElemsM, contents_succ mem, sanitizeElemsT]
    rcases h : getCleansedValueT config t (mem base) with ⟨⟨v, _ | err⟩ | _, calls⟩
    · cases e with
      | false => simp [contents_succ]
      | true =>
        simp only [if_true]
        have hb : base ∉ window (base + 1) len := by
          rw [mem_window]; omega
        have hc : contents (Function.update mem base v) (base + 1) len =
            contents mem (base + 1) len := by
          apply contents_congr
          intro a ha
          have : a ≠ base := by rintro rfl; exact hb ha
          rw [Function.update_noteq this]
        obtain ⟨h1, h2, h3⟩ := ih (base + 1) (Function.update mem base v)
        rw [hc] at h1 h2 h3
        refine ⟨?_, h2, by rw [h3]⟩
        rw [contents_succ, h1, sanitizeElemsM_frame _ _ _ _ _ _ _ hb]
        simp
    · simp [contents_succ]
    · simp [contents_succ]

theorem SanitizeStructM_nil (config : Config) (mem : Mem) :
    SanitizeStructM config [] mem = ⟨mem, .ret none, []⟩ := by
  simp [SanitizeStructM]

theorem SanitizeStructM_cons (config : Config) (field : MField) (rest : List MField)
    (mem : Mem) :
    SanitizeStructM config (field :: rest) mem =
      match (sanitizeFieldM config field mem).stop with
      | some r => ⟨(sanitizeFieldM config field mem).mem, r, (sanitizeFieldM config field mem).calls⟩
      | none =>
        ⟨(SanitizeStructM config rest (sanitizeFieldM config field mem).mem).mem,
          (SanitizeStructM config rest (sanitizeFieldM config field mem).mem).outcome,
          (sanitizeFieldM config field mem).calls ++
            (SanitizeStructM config rest (sanitizeFieldM config field mem).mem).calls⟩ := by
  rw [SanitizeStructM]
  rcases h : sanitizeFieldM config field mem with ⟨m1, _ | r, calls⟩ <;> simp

theorem sanitizeFieldM_untagged_struct (config : Config) (n : String) (e : Bool)
    (inner : List MField) (mem : Mem) :
    sanitizeFieldM config (.mk n "" e (.struct inner)) mem =
      if e then
        ⟨(SanitizeStructM config inner mem).mem,
          if (SanitizeStructM config inner mem).outcome = .ret none then none
          else some (SanitizeStructM config inner mem).outcome,
          (SanitizeStructM config inner mem).calls⟩
      else ⟨mem, some .panic, []⟩ := by
  rw [sanitizeFieldM]
  cases e with
  | false => simp
  | true =>
    simp only [if_true]
    rcases h : (SanitizeStructM config inner mem).outcome with (_ | err) | _ <;> simp [h]

theorem sanitizeFieldM_untagged_leaf (config : Config) (n : String) (e : Bool) (v : MValue)
    (mem : Mem) (hv : v.kind ≠ .Struct) :
    sanitizeFieldM config (.mk n "" e v) mem = ⟨mem, none, []⟩ := by
  cases v <;> simp_all [MValue.kind, sanitizeFieldM]

theorem sanitizeFieldM_tagged_badKind (config : Config) (n t : String) (e : Bool)
    (v : MValue) (mem : Mem) (ht : t ≠ "")
    (hv : v.kind ≠ .String ∧ ¬ (v.kind = .Slice ∧ v.elemKind = some .String)) :
    sanitizeFieldM config (.mk n t e v) mem =
      ⟨mem, some (.ret (some .ErrInvalidPropertyType)), []⟩ := by
  cases v <;> simp_all [MValue.kind, MValue.elemKind, sanitizeFieldM]

theorem sanitizeFieldM_tagged_strSlice (config : Config) (n t : String) (e : Bool)
    (base len : Nat) (mem : Mem) (ht : t ≠ "") :
    sanitizeFieldM config (.mk n t e (.strSlice base len)) mem =
      sanitizeElemsM config t e len base mem := by
  rw [sanitizeFieldM]
  simp [ht, MValue.kind, MValue.elemKind]

theorem sanitizeFieldM_tagged_str (config : Config) (n t : String) (e : Bool) (addr : Nat)
    (mem : Mem) (ht : t ≠ "") :
    sanitizeFieldM config (.mk n t e (.str addr)) mem =
      match getCleansedValueT config t (mem addr) with
      | (.panic, calls) => ⟨mem, some .panic, calls⟩
      | (.ret (_, some err), calls) => ⟨mem, some (.ret (some err)), calls⟩
      | (.ret (cleanedValue, none), calls) =>
        if e then ⟨Function.update mem addr cleanedValue, none, calls⟩
        else ⟨mem, some .panic, calls⟩ := by
  rw [sanitizeFieldM]
  simp [ht, MValue.kind]

theorem MOther.memKind_ne_String (o : MOther) : o.kind ≠ .String := by
  cases o <;> simp [MOther.kind]

theorem MOther.memKind_ne_Struct (o : MOther) : o.kind ≠ .Struct := by
  cases o <;> simp [MOther.kind]

theorem MOther.memKind_not_strSlice (o : MOther) :
    ¬ (o.kind = .Slice ∧ o.elemKind = some .String) := by
  cases o <;> simp [MOther.kind, MOther.elemKind]

theorem MOther.badKind (o : MOther) :
    (MValue.other o).kind ≠ .String ∧
      ¬ ((MValue.other o).kind = .Slice ∧ (MValue.other o).elemKind = some .String) :=
  ⟨by simpa [MValue.kind] using o.memKind_ne_String,
    by simpa [MValue.kind, MValue.elemKind] using o.memKind_not_strSlice⟩

/-- One iteration writes only the storage of the field it works on. -/
theorem sanitizeFieldM_frame_leaf (config : Config) (n t : String) (e : Bool) (v : MValue)
    (hv : v.kind ≠ .Struct) (mem : Mem) (a : Nat) (ha : a ∉ fieldWritten (.mk n t e v)) :
    (sanitizeFieldM config (.mk n t e v) mem).mem a = mem a := by
  by_cases ht : t = ""
  · subst ht
    rw [sanitizeFieldM_untagged_leaf _ _ _ _ _ hv]
  · cases v with
    | struct inner => simp [MValue.kind] at hv
    | other o => rw [sanitizeFieldM_tagged_badKind _ _ _ _ _ _ ht o.badKind]
    | strSlice base len =>
      rw [sanitizeFieldM_tagged_strSlice _ _ _ _ _ _ _ ht]
      exact sanitizeElemsM_frame _ _ _ _ _ _ _ (by simpa [fieldWritten, ht] using ha)
    | str addr =>
      rw [sanitizeFieldM_tagged_str _ _ _ _ _ _ ht]
      have hne : a ≠ addr := by simpa [fieldWritten, ht] using ha
      rcases h : getCleansedValueT config t (mem addr) with ⟨⟨v, _ | err⟩ | _, calls⟩
      · cases e <;> simp [Function.update_noteq hne]
      · rfl
      · rfl

/-- A call writes only the storage of the tagged strings and `[]string` fields. -/
theorem SanitizeStructM_frame (config : Config) :
    ∀ (fields : List MField) (mem : Mem) (a : Nat), a ∉ written fields →
      (SanitizeStructM config fields mem).mem a = mem a
  | [], mem, a, _ => by simp [SanitizeStructM_nil]
  | (.mk n t e v) :: xs, mem, a, ha => by
    simp only [written, List.mem_append, not_or] at ha
    have key : (sanitizeFieldM config (.mk n t e v) mem).mem a = mem a := by
      cases v with
      | struct inner =>
        by_cases ht : t = ""
        · subst ht
          rw [sanitizeFieldM_untagged_struct]
          cases e with
          | false => rfl
          | true =>
            simp only [if_true]
            exact SanitizeStructM_frame config inner mem a (by simpa [fieldWritten] using ha.1)
        · rw [sanitizeFieldM_tagged_badKind _ _ _ _ _ _ ht (by simp [MValue.kind])]
      | str addr => exact sanitizeFieldM_frame_leaf _ _ _ _ _ (by simp [MValue.kind]) _ _ ha.1
      | strSlice base len =>
        exact sanitizeFieldM_frame_leaf _ _ _ _ _ (by simp [MValue.kind]) _ _ ha.1
      | other o =>
        exact sanitizeFieldM_frame_leaf _ _ _ _ _
          (by simpa [MValue.kind] using o.memKind_ne_Struct) _ _ ha.1
    rw [SanitizeStructM_cons]
    rcases h : (sanitizeFieldM config (.mk n t e v) mem).stop with _ | r
    · simp only
      rw [SanitizeStructM_frame config xs _ a ha.2, key]
    · exact key

theorem sanitizeFieldM_frame (config : Config) (field : MField) (mem : Mem) (a : Nat)
    (ha : a ∉ fieldWritten field) : (sanitizeFieldM config field mem).mem a = mem a := by
  have h := SanitizeStructM_frame config [field] mem a (by simpa [written] using ha)
  rw [SanitizeStructM_cons] at h
  rcases hs : (sanitizeFieldM config field mem).stop with _ | r
  · simpa [hs, SanitizeStructM_nil] using h
  · simpa [hs] using h

theorem MOther.memView_congr {m1 m2 : Mem} (o : MOther) (h : ∀ a ∈ o.footprint, m1 a = m2 a) :
    o.view m1 = o.view m2 := by
  cases o with
  | int n => rfl
  | bool b => rfl
  | intSlice xs => rfl
  | strArray base len =>
    simp only [MOther.view]
    rw [contents_congr (by simpa [MOther.footprint] using h)]
  | strPtr target =>
    cases target with
    | none => rfl
    | some a => simp [MOther.view, h a (by simp [MOther.footprint])]

/-- The record read from memory depends only on the strings at the addresses of its
contents. -/
theorem view_congr {m1 m2 : Mem} :
    ∀ fields : List MField, (∀ a ∈ footprint fields, m1 a = m2 a) →
      view m1 fields = view m2 fields
  | [], _ => by simp [view]
  | (.mk n t e v) :: xs, h => by
    simp only [footprint, List.mem_append] at h
    have ih := view_congr xs (fun a ha => h a (Or.inr ha))
    have key : viewField m1 (.mk n t e v) = viewField m2 (.mk n t e v) := by
      cases v with
      | str addr => simp [viewField, h addr (Or.inl (by simp [fieldFootprint]))]
      | strSlice base len =>
        simp only [viewField]
        rw [contents_congr (fun a ha => h a (Or.inl (by simpa [fieldFootprint] using ha)))]
      | struct inner =>
        simp only [viewField]
        rw [view_congr inner (fun a ha => h a (Or.inl (by simpa [fieldFootprint] using ha)))]
      | other o =>
        simp only [viewField]
        rw [o.memView_congr (fun a ha => h a (Or.inl (by simpa [fieldFootprint] using ha)))]
    simp only [view, key, ih]

theorem viewField_congr {m1 m2 : Mem} (field : MField)
    (h : ∀ a ∈ fieldFootprint field, m1 a = m2 a) : viewField m1 field = viewField m2 field := by
  have := @view_congr m1 m2 [field] (by simpa [footprint] using h)
  simpa [view] using this

theorem MOther.view_kind (mem : Mem) (o : MOther) : (o.view mem).kind = o.kind := by
  cases o <;> rfl

theorem MOther.view_elemKind (mem : Mem) (o : MOther) : (o.view mem).elemKind = o.elemKind := by
  cases o <;> rfl

/-- One iteration on memory, on a field that is not a nested struct, does to the field what
the iteration by value does to the field read from memory. -/
theorem sanitizeFieldM_leaf_eq (config : Config) (n t : String) (e : Bool) (v : MValue)
    (hv : v.kind ≠ .Struct) (mem : Mem) :
    viewField (sanitizeFieldM config (.mk n t e v) mem).mem (.mk n t e v) =
        (sanitizeFieldT config (viewField mem (.mk n t e v))).1.1 ∧
      (sanitizeFieldM config (.mk n t e v) mem).stop =
        (sanitizeFieldT config (viewField mem (.mk n t e v))).1.2 ∧
      (sanitizeFieldM config (.mk n t e v) mem).calls =
        (sanitizeFieldT config (viewField mem (.mk n t e v))).2 := by
  cases v with
  | struct inner => simp [MValue.kind] at hv
  | other o =>
    have hk : (Value.other (o.view mem)).kind ≠ .Struct := by
      simpa [Value.kind, MOther.view_kind] using o.memKind_ne_Struct
    by_cases ht : t = ""
    · subst ht
      rw [sanitizeFieldM_untagged_leaf _ _ _ _ _ hv]
      simp only [viewField]
      rw [sanitizeFieldT_leaf _ _ _ _ _ hk, sanitizeField_untagged_leaf _ _ _ _ hk]
      simp
    · rw [sanitizeFieldM_tagged_badKind _ _ _ _ _ _ ht o.badKind]
      simp only [viewField]
      have hb : (Value.other (o.view mem)).kind ≠ .String ∧
          ¬ ((Value.other (o.view mem)).kind = .Slice ∧
            (Value.other (o.view mem)).elemKind = some .String) := by
        simpa [Value.kind, Value.elemKind, MOther.view_kind, MOther.view_elemKind,
          MValue.kind, MValue.elemKind] using o.badKind
      rw [sanitizeFieldT_leaf _ _ _ _ _ hk, sanitizeField_tagged_badKind _ _ _ _ _ ht hb]
      simp [ht]
  | str addr =>
    by_cases ht : t = ""
    · subst ht
      rw [sanitizeFieldM_untagged_leaf _ _ _ _ _ hv]
      simp [viewField, sanitizeFieldT]
    · rw [sanitizeFieldM_tagged_str _ _ _ _ _ _ ht]
      simp only [viewField, sanitizeFieldT, ht, if_false, Value.kind]
      rcases h : getCleansedValueT config t (mem addr) with ⟨⟨c, _ | err⟩ | _, calls⟩
      · cases e <;> simp [viewField]
      · simp [viewField]
      · simp [viewField]
  | strSlice base len =>
    by_cases ht : t = ""
    · subst ht
      rw [sanitizeFieldM_untagged_leaf _ _ _ _ _ hv]
      simp [viewField, sanitizeFieldT]
    · rw [sanitizeFieldM_tagged_strSlice _ _ _ _ _ _ _ ht]
      obtain ⟨h1, h2, h3⟩ := sanitizeElemsM_eq config t e len base mem
      simp [viewField, sanitizeFieldT, ht, Value.kind, Value.elemKind, h1, h2, h3]

/-- When no tagged field shares storage with another field, a call on memory does to the
record what the call by value does to the record read from memory: the final contents, the
outcome and the invocations are the same. -/
theorem SanitizeStructM_eq (config : Config) :
    ∀ (fields : List MField) (mem : Mem), separated fields = true →
      view (SanitizeStructM config fields mem).mem fields =
          (SanitizeStructT config (view mem fields)).1.1 ∧
        (SanitizeStructM config fields mem).outcome =
          (SanitizeStructT config (view mem fields)).1.2 ∧
        (SanitizeStructM config fields mem).calls =
          (SanitizeStructT config (view mem fields)).2
  | [], mem, _ => by simp [SanitizeStructM_nil, SanitizeStructT_nil, view]
  | (.mk n t e v) :: xs, mem, hsep => by
    simp only [separated, Bool.and_eq_true, decide_eq_true_eq] at hsep
    obtain ⟨⟨⟨hx, hxs⟩, h1⟩, h2⟩ := hsep
    have key : viewField (sanitizeFieldM config (.mk n t e v) mem).mem (.mk n t e v) =
          (sanitizeFieldT config (viewField mem (.mk n t e v))).1.1 ∧
        (sanitizeFieldM config (.mk n t e v) mem).stop =
          (sanitizeFieldT config (viewField mem (.mk n t e v))).1.2 ∧
        (sanitizeFieldM config (.mk n t e v) mem).calls =
          (sanitizeFieldT config (viewField mem (.mk n t e v))).2 := by
      cases v with
      | struct inner =>
        by_cases ht : t = ""
        · subst ht
          obtain ⟨i1, i2, i3⟩ := SanitizeStructM_eq config inner mem
            (by simpa [fieldSeparated] using hx)
          rw [sanitizeFieldM_untagged_struct]
          simp only [viewField]
          rw [sanitizeFieldT_untagged_struct]
          cases e with
          | false => simp [viewField]
          | true => simp [viewField, i1, i2, i3]
        · rw [sanitizeFieldM_tagged_badKind _ _ _ _ _ _ ht (by simp [MValue.kind])]
          simp [viewField, sanitizeFieldT, ht, Value.kind]
      | str addr => exact sanitizeFieldM_leaf_eq _ _ _ _ _ (by simp [MValue.kind]) _
      | strSlice base len => exact sanitizeFieldM_leaf_eq _ _ _ _ _ (by simp [MValue.kind]) _
      | other o =>
        exact sanitizeFieldM_leaf_eq _ _ _ _ _ (by simpa [MValue.kind] using o.memKind_ne_Struct) _
    obtain ⟨k1, k2, k3⟩ := key
    have hrest : view (sanitizeFieldM config (.mk n t e v) mem).mem xs = view mem xs :=
      view_congr xs (fun a ha =>
        sanitizeFieldM_frame config _ mem a (fun hw => h1 a hw ha))
    rw [SanitizeStructM_cons]
    simp only [view]
    rw [SanitizeStructT_cons, ← k2, ← k3, ← k1]
    rcases hs : (sanitizeFieldM config (.mk n t e v) mem).stop with _ | r
    · obtain ⟨j1, j2, j3⟩ := SanitizeStructM_eq config xs
        (sanitizeFieldM config (.mk n t e v) mem).mem hxs
      rw [hrest] at j1 j2 j3
      have hfield : viewField (SanitizeStructM config xs
            (sanitizeFieldM config (.mk n t e v) mem).mem).mem (.mk n t e v) =
          viewField (sanitizeFieldM config (.mk n t e v) mem).mem (.mk n t e v) :=
        viewField_congr _ (fun a ha =>
          SanitizeStructM_frame config xs _ a (h2 a ha))
      simp only [hfield, j1, j2, j3]
      exact ⟨trivial, trivial, trivial⟩
    · simp only [hrest]
      exact ⟨trivial, trivial, trivial⟩

theorem SanitizeStructM_view (config : Config) (fields : List MField) (mem : Mem)
    (hsep : separated fields = true) :
    view (SanitizeStructM config fields mem).mem fields =
      (SanitizeStruct config (view mem fields)).1 := by
  rw [(SanitizeStructM_eq config fields mem hsep).1, SanitizeStructT_fst]

/-- The outcome of the call by value does not depend on the strings held in memory. -/
theorem outcome_view_indep (config : Config) (m1 m2 : Mem) :
    ∀ fields : List MField,
      (SanitizeStruct config (view m1 fields)).2 = (SanitizeStruct config (view m2 fields)).2
  | [] => by simp [view]
  | (.mk n t e v) :: xs => by
    have ih := outcome_view_indep config m1 m2 xs
    have key : (sanitizeField config (viewField m1 (.mk n t e v))).2 =
        (sanitizeField config (viewField m2 (.mk n t e v))).2 := by
      cases v with
      | struct inner =>
        simp only [viewField]
        by_cases ht : t = ""
        · subst ht
          rw [sanitizeField_untagged_struct, sanitizeField_untagged_struct,
            outcome_view_indep config m1 m2 inner]
          cases e <;> simp
        · rw [sanitizeField_tagged_badKind _ _ _ _ _ ht (by simp [Value.kind]),
            sanitizeField_tagged_badKind _ _ _ _ _ ht (by simp [Value.kind])]
      | str addr =>
        simp only [viewField]
        by_cases ht : t = ""
        · subst ht
          rw [sanitizeField_untagged_leaf _ _ _ _ (by simp [Value.kind]),
            sanitizeField_untagged_leaf _ _ _ _ (by simp [Value.kind])]
        · rw [sanitizeField_tagged_str _ _ _ _ _ ht, sanitizeField_tagged_str _ _ _ _ _ ht]
          cases resolve config t <;> cases e <;> rfl
      | strSlice base len =>
        simp only [viewField]
        by_cases ht : t = ""
        · subst ht
          rw [sanitizeField_untagged_leaf _ _ _ _ (by simp [Value.kind]),
            sanitizeField_untagged_leaf _ _ _ _ (by simp [Value.kind])]
        · rw [sanitizeField_tagged_strSlice _ _ _ _ _ ht,
            sanitizeField_tagged_strSlice _ _ _ _ _ ht, sanitizeElems_eq, sanitizeElems_eq]
          cases len with
          | zero => simp [contents, window]
          | succ len =>
            simp only [contents_succ]
            cases resolve config t <;> cases e <;> rfl
      | other o =>
        simp only [viewField]
        have hk : ∀ m : Mem, (Value.other (o.view m)).kind ≠ .Struct := fun m => by
          simpa [Value.kind, MOther.view_kind] using o.memKind_ne_Struct
        have hb : ∀ m : Mem, (Value.other (o.view m)).kind ≠ .String ∧
            ¬ ((Value.other (o.view m)).kind = .Slice ∧
              (Value.other (o.view m)).elemKind = some .String) := fun m => by
          simpa [Value.kind, Value.elemKind, MOther.view_kind, MOther.view_elemKind,
            MValue.kind, MValue.elemKind] using o.badKind
        by_cases ht : t = ""
        · subst ht
          rw [sanitizeField_untagged_leaf _ _ _ _ (hk m1),
            sanitizeField_untagged_leaf _ _ _ _ (hk m2)]
        · rw [sanitizeField_tagged_badKind _ _ _ _ _ ht (hb m1),
            sanitizeField_tagged_badKind _ _ _ _ _ ht (hb m2)]
    simp only [view]
    rw [SanitizeStruct_cons, SanitizeStruct_cons, key, ih]
    rcases sanitizeField config (viewField m2 (.mk n t e v)) with ⟨f2, _ | r⟩ <;> rfl

/-- Whatever storage the fields share, a call on memory ends the way the call by value on
the record read from memory ends. -/
theorem SanitizeStructM_outcome (config : Config) :
    ∀ (fields : List MField) (mem : Mem),
      (SanitizeStructM config fields mem).outcome =
        (SanitizeStruct config (view mem fields)).2
  | [], mem => by simp [SanitizeStructM_nil, SanitizeStruct_nil, view]
  | (.mk n t e v) :: xs, mem => by
    have key : (sanitizeFieldM config (.mk n t e v) mem).stop =
        (sanitizeField config (viewField mem (.mk n t e v))).2 := by
      cases v with
      | struct inner =>
        simp only [viewField]
        by_cases ht : t = ""
        · subst ht
          rw [sanitizeFieldM_untagged_struct, sanitizeField_untagged_struct,
            SanitizeStructM_outcome config inner mem]
          cases e <;> simp
        · rw [sanitizeFieldM_tagged_badKind _ _ _ _ _ _ ht (by simp [MValue.kind]),
            sanitizeField_tagged_badKind _ _ _ _ _ ht (by simp [Value.kind])]
      | str addr =>
        rw [(sanitizeFieldM_leaf_eq config n t e _ (by simp [MValue.kind]) mem).2.1,
          sanitizeFieldT_fst]
      | strSlice base len =>
        rw [(sanitizeFieldM_leaf_eq config n t e _ (by simp [MValue.kind]) mem).2.1,
          sanitizeFieldT_fst]
      | other o =>
        rw [(sanitizeFieldM_leaf_eq config n t e _
          (by simpa [MValue.kind] using o.memKind_ne_Struct) mem).2.1, sanitizeFieldT_fst]
    rw [SanitizeStructM_cons]
    simp only [view]
    rw [SanitizeStruct_cons, ← key]
    rcases hs : (sanitizeFieldM config (.mk n t e v) mem).stop with _ | r
    · simp only
      rw [SanitizeStructM_outcome config xs]
      exact outcome_view_indep config _ _ xs
    · rfl

theorem view_getElem? (mem : Mem) :
    ∀ (fields : List MField) (i : Nat), (view mem fields)[i]? = (fields[i]?).map (viewField mem)
  | [], i => by simp [view]
  | x :: xs, 0 => by simp [view]
  | x :: xs, i + 1 => by simp [view, view_getElem? mem xs i]

theorem fieldAtM_single (fields : List MField) (i : Nat) : fieldAtM fields [i] = fields[i]? := by
  simp [fieldAtM]

theorem fieldAtM_cons_cons (fields : List MField) (i j : Nat) (p : List Nat) :
    fieldAtM fields (i :: j :: p) =
      match fields[i]? with
      | some (.mk _ _ _ (.struct inner)) => fieldAtM inner (j :: p)
      | _ => none := by
  simp [fieldAtM]

/-- Reading the record from memory and then following a path is following the path and then
reading the field from memory. -/
theorem fieldAt_view (mem : Mem) :
    ∀ (p : List Nat) (fields : List MField),
      fieldAt (view mem fields) p = (fieldAtM fields p).map (viewField mem) := by
  intro p
  induction p with
  | nil => intro fields; simp [fieldAt, fieldAtM]
  | cons i tl ih =>
    intro fields
    cases tl with
    | nil => rw [fieldAt_single, fieldAtM_single, view_getElem?]
    | cons j p =>
      rw [fieldAt_cons_cons, fieldAtM_cons_cons, view_getElem?]
      rcases hi : fields[i]? with _ | ⟨n, t, e, v⟩
      · simp
      · cases v with
        | struct inner => simpa [viewField] using ih inner
        | str addr => simp [viewField]
        | strSlice base len => simp [viewField]
        | other o => simp [viewField]

theorem separated_getElem? :
    ∀ (fields : List MField) (i : Nat) (x : MField), separated fields = true →
      fields[i]? = some x → fieldSeparated x = true
  | [], i, x, _, h => by simp at h
  | y :: ys, 0, x, hs, h => by
    simp only [separated, Bool.and_eq_true] at hs
    simp at h
    subst h
    exact hs.1.1.1
  | y :: ys, i + 1, x, hs, h => by
    simp only [separated, Bool.and_eq_true] at hs
    exact separated_getElem? ys i x hs.1.1.2 (by simpa using h)

/-- The fields of a nested struct of a separated record are separated. -/
theorem separated_fieldAtM :
    ∀ (p : List Nat) (fields : List MField) (n t : String) (e : Bool) (inner : List MField),
      separated fields = true → fieldAtM fields p = some (.mk n t e (.struct inner)) →
      separated inner = true := by
  intro p
  induction p with
  | nil => intro fields n t e inner _ h; simp [fieldAtM] at h
  | cons i tl ih =>
    intro fields n t e inner hs h
    cases tl with
    | nil =>
      rw [fieldAtM_single] at h
      simpa [fieldSeparated] using separated_getElem? fields i _ hs h
    | cons j p =>
      rw [fieldAtM_cons_cons] at h
      rcases hi : fields[i]? with _ | ⟨n2, t2, e2, v⟩
      · simp [hi] at h
      · cases v with
        | struct inner2 =>
          simp only [hi] at h
          have h2 : separated inner2 = true := by
            simpa [fieldSeparated] using separated_getElem? fields i _ hs hi
          exact ih inner2 n t e inner h2 h
        | str addr => simp [hi] at h
        | strSlice base len => simp [hi] at h
        | other o => simp [hi] at h

/-- A path that goes on inside a nested struct. -/
theorem fieldAtM_append :
    ∀ (p : List Nat) (fields : List MField) (n t : String) (e : Bool) (inner : List MField)
      (j : Nat) (q : List Nat),
      fieldAtM fields p = some (.mk n t e (.struct inner)) →
      fieldAtM fields (p ++ j :: q) = fieldAtM inner (j :: q) := by
  intro p
  induction p with
  | nil => intro fields n t e inner j q h; simp [fieldAtM] at h
  | cons i tl ih =>
    intro fields n t e inner j q h
    cases tl with
    | nil =>
      rw [fieldAtM_single] at h
      simp only [List.singleton_append]
      rw [fieldAtM_cons_cons, h]
    | cons k p =>
      rw [fieldAtM_cons_cons] at h
      simp only [List.cons_append]
      rw [fieldAtM_cons_cons]
      rcases hi : fields[i]? with _ | ⟨n2, t2, e2, v⟩
      · simp [hi] at h
      · cases v with
        | struct inner2 =>
          simp only [hi] at h ⊢
          exact ih inner2 n t e inner j q h
        | str addr => simp [hi] at h
        | strSlice base len => simp [hi] at h
        | other o => simp [hi] at h

/-! ## Tagged `[]string` fields on memory (C2) -/

/-- After a call that returned nil, a tagged string field at any depth holds the image of
its value under the function its tag selects. -/
theorem tagged_str_of_nil (config : Config) (fields : List Field)
    (hnil : (SanitizeStruct config fields).2 = .ret none) (p : List Nat) (n t : String)
    (e : Bool) (s : String) (ht : t ≠ "")
    (hp : fieldAt fields p = some (.mk n t e (.str s))) :
    ∃ F, resolve config t = .fn F ∧
      fieldAt (SanitizeStruct config fields).1 p = some (.mk n t e (.str (F s))) := by
  obtain ⟨ho, hnone⟩ := fieldAt_of_nil config p fields _ hnil hp
  obtain ⟨F, hF, hfst⟩ := sanitizeField_str_none ht hnone
  exact ⟨F, hF, by rw [ho, hfst]⟩

/-- In a separated record, after a call that returned nil, the string of a tagged string
field at any depth is the image of the original string under the function its tag
selects. -/
theorem tagged_str_in_memory (config : Config) (fields : List MField) (mem : Mem)
    (hsep : separated fields = true)
    (hnil : (SanitizeStructM config fields mem).outcome = .ret none) (p : List Nat)
    (n t : String) (e : Bool) (a : Nat) (ht : t ≠ "")
    (hp : fieldAtM fields p = some (.mk n t e (.str a))) :
    ∃ F, resolve config t = .fn F ∧ (SanitizeStructM config fields mem).mem a = F (mem a) := by
  rw [SanitizeStructM_outcome] at hnil
  have hpv : fieldAt (view mem fields) p = some (.mk n t e (.str (mem a))) := by
    rw [fieldAt_view, hp]; simp [viewField]
  obtain ⟨F, hF, ho⟩ := tagged_str_of_nil config (view mem fields) hnil p n t e _ ht hpv
  refine ⟨F, hF, ?_⟩
  rw [← SanitizeStructM_view _ _ _ hsep, fieldAt_view, hp] at ho
  simpa [viewField] using ho

/-- C3, counterexample: the untagged `[]string` field `Favorites` shares its backing array
with the `[]string` field `Tags`, tagged "stripall", of the nested struct `Inner`. The call
returns nil and `Favorites`, an untagged field of the outer record that is not a nested
struct, holds `["x!"]` instead of its value `["x"]`. -/
theorem shared_untagged_slice_changed_beside_nested_struct :
    (SanitizeStructM (Config.of (fun s => s ++ "!") (fun s => s ++ "?"))
        [.mk "Inner" "" true (.struct [.mk "Tags" "stripall" true (.strSlice 0 1)]),
         .mk "Favorites" "" true (.strSlice 0 1)] (fun _ => "x")).outcome = .ret none ∧
    fieldAt (view (fun _ => "x")
        [.mk "Inner" "" true (.struct [.mk "Tags" "stripall" true (.strSlice 0 1)]),
         .mk "Favorites" "" true (.strSlice 0 1)]) [1] =
      some (.mk "Favorites" "" true (.strSlice ["x"])) ∧
    fieldAt (view (SanitizeStructM (Config.of (fun s => s ++ "!") (fun s => s ++ "?"))
        [.mk "Inner" "" true (.struct [.mk "Tags" "stripall" true (.strSlice 0 1)]),
         .mk "Favorites" "" true (.strSlice 0 1)] (fun _ => "x")).mem
        [.mk "Inner" "" true (.struct [.mk "Tags" "stripall" true (.strSlice 0 1)]),
         .mk "Favorites" "" true (.strSlice 0 1)]) [1] =
      some (.mk "Favorites" "" true (.strSlice ["x!"])) ∧
    ["x!"] ≠ ["x"] :=
  ⟨by decide, by rfl, by rfl, by decide⟩

/-- C3, amended. Sanitization applies at every nesting depth when no tagged string or
`[]string` field shares storage with another field: after a call that returned nil, an
untagged field holding a nested struct, at any depth, holds what `SanitizeStruct` leaves
when called directly on that nested struct (a call that returns nil), every string field
inside it tagged "stripall" holds `f` of its original value and every one tagged "safeugc"
holds `g` of its original value, at any depth; and an untagged field that is not a nested
struct keeps its value. -/
theorem nested_struct_when_separated (f g : String → String) (fields : List MField)
    (mem : Mem) (hsep : separated fields = true)
    (hnil : (SanitizeStructM (Config.of f g) fields mem).outcome = .ret none)
    (p : List Nat) (n : String) (e : Bool) :
    (∀ inner, fieldAtM fields p = some (.mk n "" e (.struct inner)) →
      view (SanitizeStructM (Config.of f g) fields mem).mem inner =
          view (SanitizeStructM (Config.of f g) inner mem).mem inner ∧
        (SanitizeStructM (Config.of f g) inner mem).outcome = .ret none ∧
        (∀ q m x a, fieldAtM inner q = some (.mk m "stripall" x (.str a)) →
          (SanitizeStructM (Config.of f g) fields mem).mem a = f (mem a)) ∧
        (∀ q m x a, fieldAtM inner q = some (.mk m "safeugc" x (.str a)) →
          (SanitizeStructM (Config.of f g) fields mem).mem a = g (mem a))) ∧
    (∀ v, v.kind ≠ .Struct → fieldAtM fields p = some (.mk n "" e v) →
      viewField (SanitizeStructM (Config.of f g) fields mem).mem (.mk n "" e v) =
        viewField mem (.mk n "" e v)) := by
  have hnil2 := hnil
  rw [SanitizeStructM_outcome] at hnil2
  have hview := SanitizeStructM_view (Config.of f g) fields mem hsep
  constructor
  · intro inner hp
    have hpv : fieldAt (view mem fields) p = some (.mk n "" e (.struct (view mem inner))) := by
      rw [fieldAt_view, hp]; simp [viewField]
    obtain ⟨h1, h2⟩ := (nested_struct_byValue (Config.of f g)
      (view mem fields) hnil2 p n e).1 _ hpv
    rw [← hview, fieldAt_view, hp] at h1
    have h1' : view (SanitizeStructM (Config.of f g) fields mem).mem inner =
        (SanitizeStruct (Config.of f g) (view mem inner)).1 := by
      simpa [viewField] using h1
    have hsin := separated_fieldAtM p fields n "" e inner hsep hp
    refine ⟨?_, ?_, ?_, ?_⟩
    · rw [h1', SanitizeStructM_view _ _ _ hsin]
    · rw [SanitizeStructM_outcome]; exact h2
    · intro q m x a hq
      cases q with
      | nil => simp [fieldAtM] at hq
      | cons j q =>
        have hpq := fieldAtM_append p fields n "" e inner j q hp
        rw [hq] at hpq
        obtain ⟨F, hF, hm⟩ := tagged_str_in_memory (Config.of f g) fields mem hsep hnil
          (p ++ j :: q) m "stripall" x a (by decide) hpq
        rw [resolve_stripall] at hF
        injection hF with hF
        rw [hm, ← hF]
    · intro q m x a hq
      cases q with
      | nil => simp [fieldAtM] at hq
      | cons j q =>
        have hpq := fieldAtM_append p fields n "" e inner j q hp
        rw [hq] at hpq
        obtain ⟨F, hF, hm⟩ := tagged_str_in_memory (Config.of f g) fields mem hsep hnil
          (p ++ j :: q) m "safeugc" x a (by decide) hpq
        rw [resolve_safeugc] at hF
        injection hF with hF
        rw [hm, ← hF]
  · intro v hv hp
    have hpv : fieldAt (view mem fields) p = some (viewField mem (.mk n "" e v)) := by
      rw [fieldAt_view, hp]; rfl
    have hshape : ∃ w, viewField mem (.mk n "" e v) = .mk n "" e w ∧ w.kind ≠ .Struct := by
      cases v with
      | struct inner => simp [MValue.kind] at hv
      | str a => exact ⟨_, rfl, by simp [Value.kind]⟩
      | strSlice b l => exact ⟨_, rfl, by simp [Value.kind]⟩
      | other o =>
        exact ⟨_, rfl, by simpa [Value.kind, MOther.view_kind] using o.memKind_ne_Struct⟩
    obtain ⟨w, hw, hwk⟩ := hshape
    rw [hw] at hpv
    have h := (nested_struct_byValue (Config.of f g)
      (view mem fields) hnil2 p n e).2 w hwk hpv
    rw [← hview, fieldAt_view, hp] at h
    rw [hw]
    simpa using h

/-- Witness for C3 amended: in a record nested two levels deep, the string `City` tagged
"stripall", stored at address 5, holds "c!" after the call. -/
theorem nested_struct_when_separated_witness :
    (SanitizeStructM (Config.of (fun s => s ++ "!") (fun s => s ++ "?"))
      [.mk "User" "" true (.struct
        [.mk "ID" "" true (.other (.int 1)),
         .mk "Address" "" true (.struct [.mk "City" "stripall" true (.str 5)])])]
      (fun _ => "c")).mem 5 = "c!" :=
  ((nested_struct_when_separated (fun s => s ++ "!") (fun s => s ++ "?")
    [.mk "User" "" true (.struct
      [.mk "ID" "" true (.other (.int 1)),
       .mk "Address" "" true (.struct [.mk "City" "stripall" true (.str 5)])])]
    (fun _ => "c") (by decide) (by decide) [0] "User" true).1
    [.mk "ID" "" true (.other (.int 1)),
     .mk "Address" "" true (.struct [.mk "City" "stripall" true (.str 5)])] (by rfl)).2.2.1
    [1, 0] "City" true 5 (by rfl)

/-- C5, counterexample: the untagged `[]string` field `Favorites` shares its backing array
with the `[]string` field `Tags` tagged "stripall"; the call fails with
`ErrInvalidPropertyType` at the field `ID`, and `Favorites` holds `["x!"]` instead of its
value `["x"]`. -/
theorem shared_untagged_slice_changed :
    (SanitizeStructM (Config.of (fun s => s ++ "!") (fun s => s ++ "?"))
        [.mk "Tags" "stripall" true (.strSlice 0 1),
         .mk "Favorites" "" true (.strSlice 0 1),
         .mk "ID" "stripall" true (.other (.int 1))] (fun _ => "x")).outcome =
      .ret (some .ErrInvalidPropertyType) ∧
    fieldAt (view (fun _ => "x")
        [.mk "Tags" "stripall" true (.strSlice 0 1),
         .mk "Favorites" "" true (.strSlice 0 1),
         .mk "ID" "stripall" true (.other (.int 1))]) [1] =
      some (.mk "Favorites" "" true (.strSlice ["x"])) ∧
    fieldAt (view (SanitizeStructM (Config.of (fun s => s ++ "!") (fun s => s ++ "?"))
        [.mk "Tags" "stripall" true (.strSlice 0 1),
         .mk "Favorites" "" true (.strSlice 0 1),
         .mk "ID" "stripall" true (.other (.int 1))] (fun _ => "x")).mem
        [.mk "Tags" "stripall" true (.strSlice 0 1),
         .mk "Favorites" "" true (.strSlice 0 1),
         .mk "ID" "stripall" true (.other (.int 1))]) [1] =
      some (.mk "Favorites" "" true (.strSlice ["x!"])) ∧
    ["x!"] ≠ ["x"] :=
  ⟨by decide, by rfl, by rfl, by decide⟩

/-- C5, amended. Whatever the outcome of the call (nil, an error or a panic) and whatever
else the record contains, an untagged field, at any depth, that shares no storage with a
tagged string or `[]string` field has the same value after the call as before: read from
memory after the call, the field at its path is the field read from memory before. -/
theorem untagged_field_unchanged_in_memory (config : Config) (fields : List MField)
    (mem : Mem) (p : List Nat) (n : String) (e : Bool) (v : MValue)
    (hp : fieldAtM fields p = some (.mk n "" e v))
    (hfree : ∀ a ∈ fieldFootprint (.mk n "" e v), a ∉ written fields) :
    fieldAt (view (SanitizeStructM config fields mem).mem fields) p =
      some (viewField mem (.mk n "" e v)) := by
  rw [fieldAt_view, hp]
  simp only [Option.map_some']
  rw [viewField_congr _ (fun a ha => SanitizeStructM_frame config fields mem a (hfree a ha))]

/-- Witness for C5 amended: an untagged `[]string` with its own backing array, between a
sanitized field and a failing one. -/
theorem untagged_field_unchanged_in_memory_witness :
    fieldAt (view (SanitizeStructM (Config.of (fun s => s ++ "!") (fun s => s ++ "?"))
        [.mk "Tags" "stripall" true (.strSlice 0 1),
         .mk "Favorites" "" true (.strSlice 1 2),
         .mk "ID" "stripall" true (.other (.int 1))] (fun _ => "x")).mem
        [.mk "Tags" "stripall" true (.strSlice 0 1),
         .mk "Favorites" "" true (.strSlice 1 2),
         .mk "ID" "stripall" true (.other (.int 1))]) [1] =
      some (.mk "Favorites" "" true (.strSlice ["x", "x"])) :=
  untagged_field_unchanged_in_memory (Config.of (fun s => s ++ "!") (fun s => s ++ "?"))
    [.mk "Tags" "stripall" true (.strSlice 0 1),
     .mk "Favorites" "" true (.strSlice 1 2),
     .mk "ID" "stripall" true (.other (.int 1))] (fun _ => "x") [1] "Favorites" true
    (.strSlice 1 2) (by rfl) (by decide)

/-! ## State after a failed call, on memory (C9) -/

/-- C9, counterexample: the `[]string` field `C`, declared after the failing field `Bad`,
shares its backing array with the field `A` tagged "stripall". The call returns
`ErrInvalidPropertyType` at `Bad`, and `C` holds `["x!"]` instead of its original
`["x"]`. -/
theorem shared_slice_after_failing_field_changed :
    (SanitizeStructM (Config.of (fun s => s ++ "!") (fun s => s ++ "?"))
        [.mk "A" "stripall" true (.strSlice 0 1),
         .mk "Bad" "stripall" true (.other (.int 1)),
         .mk "C" "" true (.strSlice 0 1)] (fun _ => "x")).outcome =
      .ret (some .ErrInvalidPropertyType) ∧
    fieldAt (view (fun _ => "x")
        [.mk "A" "stripall" true (.strSlice 0 1),
         .mk "Bad" "stripall" true (.other (.int 1)),
         .mk "C" "" true (.strSlice 0 1)]) [2] =
      some (.mk "C" "" true (.strSlice ["x"])) ∧
    fieldAt (view (SanitizeStructM (Config.of (fun s => s ++ "!") (fun s => s ++ "?"))
        [.mk "A" "stripall" true (.strSlice 0 1),
         .mk "Bad" "stripall" true (.other (.int 1)),
         .mk "C" "" true (.strSlice 0 1)] (fun _ => "x")).mem
        [.mk "A" "stripall" true (.strSlice 0 1),
         .mk "Bad" "stripall" true (.other (.int 1)),
         .mk "C" "" true (.strSlice 0 1)]) [2] =
      some (.mk "C" "" true (.strSlice ["x!"])) ∧
    ["x!"] ≠ ["x"] :=
  ⟨by decide, by rfl, by rfl, by decide⟩

/-- C9, amended. When no tagged string or `[]string` field shares storage with another
field and the call returns an error, there is a field at which the traversal failed: the
traversal arrives at it and its iteration returns the error, leaving the field unchanged.
That field and every field not visited before it hold their original values. Among the
fields visited before it, a tagged string holds the image of its value under the function
its tag selects, a tagged `[]string` holds the images of its elements (or is empty), and
every other field that is not a nested struct holds its original value. Fields are read
from memory, before the call (`view mem fields`) and after it. -/
theorem error_leaves_bounded_mutation_when_separated (config : Config)
    (fields : List MField) (mem : Mem) (hsep : separated fields = true) (err : Error)
    (herr : (SanitizeStructM config fields mem).outcome = .ret (some err)) :
    ∃ p fd, arrivesAt config (view mem fields) p = true ∧
      fieldAt (view mem fields) p = some fd ∧
      sanitizeField config fd = (fd, some (.ret (some err))) ∧
      (∀ q, before q p = false →
        fieldAt (view (SanitizeStructM config fields mem).mem fields) q =
          fieldAt (view mem fields) q) ∧
      (∀ q n t e s, before q p = true →
        fieldAt (view mem fields) q = some (.mk n t e (.str s)) → t ≠ "" →
        ∃ F, ((t = "stripall" ∧ config.StripAllFunc = some F) ∨
            (t = "safeugc" ∧ config.UGCFunc = some F)) ∧
          fieldAt (view (SanitizeStructM config fields mem).mem fields) q =
            some (.mk n t e (.str (F s)))) ∧
      (∀ q n t e xs, before q p = true →
        fieldAt (view mem fields) q = some (.mk n t e (.strSlice xs)) → t ≠ "" →
        (xs = [] ∧
          fieldAt (view (SanitizeStructM config fields mem).mem fields) q =
            some (.mk n t e (.strSlice []))) ∨
        ∃ F, ((t = "stripall" ∧ config.StripAllFunc = some F) ∨
            (t = "safeugc" ∧ config.UGCFunc = some F)) ∧
          fieldAt (view (SanitizeStructM config fields mem).mem fields) q =
            some (.mk n t e (.strSlice (xs.map F)))) ∧
      (∀ q n t e v, fieldAt (view mem fields) q = some (.mk n t e v) → v.kind ≠ .Struct →
        (t = "" ∨ (v.kind ≠ .String ∧ ¬ (v.kind = .Slice ∧ v.elemKind = some .String))) →
        fieldAt (view (SanitizeStructM config fields mem).mem fields) q =
          some (.mk n t e v)) := by
  rw [SanitizeStructM_outcome] at herr
  rw [SanitizeStructM_view _ _ _ hsep]
  exact error_leaves_bounded_mutation_byValue config (view mem fields) err herr

/-- Witness for C9 amended: the call fails with `ErrInvalidTagValue` at the second field of
a nested struct, whose strings and slices have storage of their own. -/
theorem error_leaves_bounded_mutation_when_separated_witness :
    (SanitizeStructM (Config.of (fun s => s ++ "!") (fun s => s ++ "?"))
        [.mk "Tags" "stripall" true (.strSlice 0 2),
         .mk "Inner" "" true (.struct
           [.mk "City" "safeugc" true (.str 2), .mk "Zip" "bogus" true (.str 3)]),
         .mk "Bio" "safeugc" true (.str 4)] (fun _ => "x")).outcome =
      .ret (some .ErrInvalidTagValue) ∧
    view (SanitizeStructM (Config.of (fun s => s ++ "!") (fun s => s ++ "?"))
        [.mk "Tags" "stripall" true (.strSlice 0 2),
         .mk "Inner" "" true (.struct
           [.mk "City" "safeugc" true (.str 2), .mk "Zip" "bogus" true (.str 3)]),
         .mk "Bio" "safeugc" true (.str 4)] (fun _ => "x")).mem
        [.mk "Tags" "stripall" true (.strSlice 0 2),
         .mk "Inner" "" true (.struct
           [.mk "City" "safeugc" true (.str 2), .mk "Zip" "bogus" true (.str 3)]),
         .mk "Bio" "safeugc" true (.str 4)] =
      [.mk "Tags" "stripall" true (.strSlice ["x!", "x!"]),
       .mk "Inner" "" true (.struct
         [.mk "City" "safeugc" true (.str "x?"), .mk "Zip" "bogus" true (.str "x")]),
       .mk "Bio" "safeugc" true (.str "x")] ∧
    ∃ p fd,
      arrivesAt (Config.of (fun s => s ++ "!") (fun s => s ++ "?"))
        (view (fun _ => "x")
          [.mk "Tags" "stripall" true (.strSlice 0 2),
           .mk "Inner" "" true (.struct
             [.mk "City" "safeugc" true (.str 2), .mk "Zip" "bogus" true (.str 3)]),
           .mk "Bio" "safeugc" true (.str 4)]) p = true ∧
      fieldAt (view (fun _ => "x")
          [.mk "Tags" "stripall" true (.strSlice 0 2),
           .mk "Inner" "" true (.struct
             [.mk "City" "safeugc" true (.str 2), .mk "Zip" "bogus" true (.str 3)]),
           .mk "Bio" "safeugc" true (.str 4)]) p = some fd ∧
      sanitizeField (Config.of (fun s => s ++ "!") (fun s => s ++ "?")) fd =
        (fd, some (.ret (some .ErrInvalidTagValue))) :=
  ⟨by decide, by rfl,
    let ⟨p, fd, h1, h2, h3, _⟩ :=
      error_leaves_bounded_mutation_when_separated
        (Config.of (fun s => s ++ "!") (fun s => s ++ "?"))
        [.mk "Tags" "stripall" true (.strSlice 0 2),
         .mk "Inner" "" true (.struct
           [.mk "City" "safeugc" true (.str 2), .mk "Zip" "bogus" true (.str 3)]),
         .mk "Bio" "safeugc" true (.str 4)] (fun _ => "x") (by decide)
        .ErrInvalidTagValue (by decide)
    ⟨p, fd, h1, h2, h3⟩⟩

/-! ## Calling twice, on memory (C10) -/

/-- C12, amended. On a record with a tagged string field, or a tagged non-empty `[]string`
field, that names a recognized policy whose slot in the configuration is unset, the call
never returns nil; when the traversal arrives at that field (no field visited earlier ends
the call) the call does not return an error: it panics, on the call of the nil function.
This holds whatever storage the fields of the record share. -/
theorem unset_slot_fails_by_panic (config : Config) (fields : List MField) (mem : Mem)
    (p : List Nat) (n t : String) (e : Bool) (v : Value)
    (hslot : (t = "stripall" ∧ config.StripAllFunc = none) ∨
      (t = "safeugc" ∧ config.UGCFunc = none))
    (hv : (∃ s, v = .str s) ∨ (∃ x xs, v = .strSlice (x :: xs)))
    (hp : fieldAt (view mem fields) p = some (.mk n t e v)) :
    (SanitizeStructM config fields mem).outcome ≠ .ret none ∧
      (arrivesAt config (view mem fields) p = true →
        (SanitizeStructM config fields mem).outcome = .panic) := by
  rw [SanitizeStructM_outcome]
  exact unset_slot_outcome_byValue config (view mem fields) p n t e v hslot hv hp

/-- Witness for C12 amended: `StripAllFunc` is set and `UGCFunc` is not; the field `B`,
tagged "safeugc", shares its backing array with the field `A`, tagged "stripall". -/
theorem unset_slot_fails_by_panic_witness :
    (SanitizeStructM ⟨some (fun s => s ++ "!"), none⟩
        [.mk "A" "stripall" true (.strSlice 0 1), .mk "B" "safeugc" true (.strSlice 0 1)]
        (fun _ => "x")).outcome ≠ .ret none ∧
      (SanitizeStructM ⟨some (fun s => s ++ "!"), none⟩
        [.mk "A" "stripall" true (.strSlice 0 1), .mk "B" "safeugc" true (.strSlice 0 1)]
        (fun _ => "x")).outcome = .panic :=
  ⟨(unset_slot_fails_by_panic ⟨some (fun s => s ++ "!"), none⟩
      [.mk "A" "stripall" true (.strSlice 0 1), .mk "B" "safeugc" true (.strSlice 0 1)]
      (fun _ => "x") [1] "B" "safeugc" true (.strSlice ["x"]) (Or.inr ⟨rfl, rfl⟩)
      (Or.inr ⟨"x", [], rfl⟩) (by rfl)).1,
    (unset_slot_fails_by_panic ⟨some (fun s => s ++ "!"), none⟩
      [.mk "A" "stripall" true (.strSlice 0 1), .mk "B" "safeugc" true (.strSlice 0 1)]
      (fun _ => "x") [1] "B" "safeugc" true (.strSlice ["x"]) (Or.inr ⟨rfl, rfl⟩)
      (Or.inr ⟨"x", [], rfl⟩) (by rfl)).2 (by decide)⟩

end Sanitags
